import Mathlib

/-!
Verification of the nonogram solver engine (`src/nonogram`, validator from
`src/nanogram/validator.py`).  Cell states follow the source convention:
`-1` unknown, `0` empty, `1` filled.  Grids are `List (List Int)`,
clue run lists are `List Nat`.
-/

/-- Data representation of a Nonogram puzzle (`nonogram/dto.py`). -/
structure NonogramPuzzle where
  size : Nat
  rows : List (List Nat)
  cols : List (List Nat)

abbrev Grid := List (List Int)

/-- Read cell `grid[r][c]`; out-of-range reads (which raise in Python and never
happen on well-formed grids) default to `-1`. -/
def cellGet (g : Grid) (r c : Nat) : Int := (g.getD r []).getD c (-1)

/-- Write cell `grid[r][c] := v` (no-op out of range, as above). -/
def cellSet (g : Grid) (r c : Nat) (v : Int) : Grid := g.set r ((g.getD r []).set c v)

/-! ## strategies/possibilities.py -/

/-- Helper `ok_block` of `_enumerate_line_patterns`: the block
`[start, start+size)` must fit in the line and contain no known-0 cell. -/
def ok_block (length : Nat) (known : List Int) (start size : Nat) : Bool :=
  if start + size > length then false
  else (List.range' start size).all (fun i => !(known.getD i (-1) == 0))

/-- Helper `consistent_fill` of `_enumerate_line_patterns`: check the whole
line against the known constraints. -/
def consistent_fill (length : Nat) (known line : List Int) : Bool :=
  (List.range length).all
    (fun i => known.getD i (-1) == -1 || known.getD i (-1) == line.getD i 0)

/-- The Python loop `for i in range(position, position+run): line[i] = 1`. -/
def writeBlock (line : List Int) : Nat → Nat → List Int
  | _, 0 => line
  | position, run + 1 => writeBlock (line.set position 1) (position + 1) run

/-- Inner recursive generator `place` of `_enumerate_line_patterns`.  `rest` is
`runs[run_idx:]`, `pos` the first index the current run may start at.  Each
iteration of the Python `while position <= max_start` loop restores `line`
before the next one, so the loop is a `flatMap` over the admissible start
positions. -/
def place (length : Nat) (known : List Int) : List Nat → Nat → List Int → List (List Int)
  | [], _, _ => []
  | run :: rest, pos, line =>
    let remaining := ((run :: rest).foldl (· + ·) 0) + ((run :: rest).length - 1)
    if length < remaining then []
    else
      (List.range' pos (length - remaining + 1 - pos)).flatMap (fun position =>
        if ok_block length known position run then
          let line1 := writeBlock line position run
          let iar := position + run
          if rest.isEmpty then
            if consistent_fill length known line1 then [line1] else []
          else
            if iar < length && (known.getD iar (-1) == 1) then []
            else
              let gline := if iar < length then line1.set iar 0 else line1
              if (List.range' pos (iar - pos)).all
                  (fun i => !((known.getD i (-1) == 1) && !(gline.getD i 0 == 1))) then
                place length known rest (iar + 1) gline
              else []
        else [])

/-- `_enumerate_line_patterns(length, runs, known)`: all 0/1 patterns of size
`length` that satisfy `runs` and are consistent with `known`. -/
def enumerate_line_patterns (length : Nat) (runs : List Nat) (known : List Int) :
    List (List Int) :=
  if runs.isEmpty then
    if known.all (fun k => k == 0 || k == -1) then [List.replicate length 0] else []
  else place length known runs 0 (List.replicate length 0)

example : enumerate_line_patterns 5 [2] (List.replicate 5 (-1)) =
    [[1,1,0,0,0],[0,1,1,0,0],[0,0,1,1,0],[0,0,0,1,1]] := by decide

example : enumerate_line_patterns 5 [2] [0,-1,-1,-1,-1] =
    [[0,1,1,0,0],[0,0,1,1,0],[0,0,0,1,1]] := by decide

example : enumerate_line_patterns 5 [] [1,-1,-1,-1,-1] = [] := by decide

example : enumerate_line_patterns 5 [3,1] (List.replicate 5 (-1)) =
    [[1,1,1,0,1]] := by decide

/-- The inner loop of `deduce_from_possibilities` that bumps
`ones_count[i] += 1` for every `i` with `pattern[i] == 1`. -/
def bumpOnes (oc : List Nat) (pattern : List Int) : List Nat :=
  (List.range pattern.length).foldl
    (fun oc i => if pattern.getD i 0 == 1 then oc.set i (oc.getD i 0 + 1) else oc) oc

/-- `deduce_from_possibilities(length, runs, known)`: enumerate all valid
patterns and return `(must_fill, must_empty)`; both are empty when no valid
pattern exists. -/
def deduce_from_possibilities (length : Nat) (runs : List Nat) (known : List Int) :
    List Nat × List Nat :=
  let patterns := enumerate_line_patterns length runs known
  if patterns.isEmpty then ([], [])
  else
    let len_patterns := patterns.length
    let ones_count := patterns.foldl bumpOnes (List.replicate length 0)
    ((List.range length).filter (fun i => ones_count.getD i 0 == len_patterns),
     (List.range length).filter (fun i => ones_count.getD i 0 == 0))

example : deduce_from_possibilities 5 [3,1] (List.replicate 5 (-1)) =
    ([0,1,2,4], [3]) := by decide

example : deduce_from_possibilities 5 [2] (List.replicate 5 (-1)) = ([], []) := by decide

example : deduce_from_possibilities 1 [] [1] = ([], []) := by decide

/-! ## strategies/overlap.py -/

/-- The Python idiom `sorted(set(forced))`: the ascending list of the distinct
elements of `forced`. -/
def py_sorted_set (l : List Nat) : List Nat := (l.dedup).insertionSort (· ≤ ·)

/-- `overlap_fill_line(length, runs)`: indices guaranteed filled by the classic
overlap/core-fill slack arithmetic, ignoring prior knowledge.  `pref` is the
prefix-sum table built by the source (`pref[i]` = sum of the first `i` runs).
The source's slack test `S < 0` on Python ints is `length < req` here. -/
def overlap_fill_line (length : Nat) (runs : List Nat) : List Nat :=
  if runs.isEmpty then []
  else
    let k := runs.length
    let req := runs.foldl (· + ·) 0 + (k - 1)
    if length < req then []
    else
      let S := length - req
      let pref := runs.scanl (· + ·) 0
      let forced := (List.range k).flatMap (fun i =>
        let r := runs.getD i 0
        if r ≤ S then []
        else
          let earliest_start := pref.getD i 0 + i
          let latest_start := length - ((pref.getD k 0 - pref.getD i 0) + (k - 1 - i))
          let start := latest_start
          let stop := earliest_start + r - 1
          if start ≤ stop then List.range' start (stop + 1 - start) else [])
      py_sorted_set forced

example : overlap_fill_line 5 [3,1] = [0,1,2,4] := by decide
example : overlap_fill_line 5 [3] = [2] := by decide
example : overlap_fill_line 5 [2] = [] := by decide
example : overlap_fill_line 2 [2,2] = [] := by decide

/-- `apply_overlap_pass(puzzle, grid)`: one global overlap pass over all rows
and columns; marks forced cells that are still unknown as filled and reports
whether anything changed. -/
def apply_overlap_pass (puzzle : NonogramPuzzle) (grid : Grid) : Grid × Bool :=
  let N := puzzle.size
  let gc := (List.range N).foldl
    (fun gc r =>
      (overlap_fill_line N (puzzle.rows.getD r [])).foldl
        (fun gc c =>
          if cellGet gc.1 r c == -1 then (cellSet gc.1 r c 1, true) else gc) gc)
    (grid, false)
  (List.range N).foldl
    (fun gc c =>
      (overlap_fill_line N (puzzle.cols.getD c [])).foldl
        (fun gc i =>
          if cellGet gc.1 i c == -1 then (cellSet gc.1 i c 1, true) else gc) gc)
    gc

/-! ## solver.py -/

/-- `apply_possibility_pass(puzzle, grid)`: for each row and then each column,
deduce must-fill / must-empty cells from the possibility intersection and write
them; reports whether anything changed. -/
def apply_possibility_pass (puzzle : NonogramPuzzle) (grid : Grid) : Grid × Bool :=
  let N := puzzle.size
  let gc := (List.range N).foldl
    (fun gc r =>
      let known := gc.1.getD r []
      let mfme := deduce_from_possibilities N (puzzle.rows.getD r []) known
      let gc1 := mfme.1.foldl
        (fun gc c =>
          if !(cellGet gc.1 r c == 1) then (cellSet gc.1 r c 1, true) else gc) gc
      mfme.2.foldl
        (fun gc c =>
          if !(cellGet gc.1 r c == 0) then (cellSet gc.1 r c 0, true) else gc) gc1)
    (grid, false)
  (List.range N).foldl
    (fun gc c =>
      let known := (List.range N).map (fun i => cellGet gc.1 i c)
      let mfme := deduce_from_possibilities N (puzzle.cols.getD c []) known
      let gc1 := mfme.1.foldl
        (fun gc i =>
          if !(cellGet gc.1 i c == 1) then (cellSet gc.1 i c 1, true) else gc) gc
      mfme.2.foldl
        (fun gc i =>
          if !(cellGet gc.1 i c == 0) then (cellSet gc.1 i c 0, true) else gc) gc1)
    gc

/-! ## nanogram/validator.py (imported by the solver as the validator) -/

/-- `_line_groups_of_ones(line)`: run lengths of consecutive 1s, written with
the accumulating `run` counter of the source loop. -/
def line_groups_of_ones_aux : List Int → Nat → List Nat
  | [], run => if run ≠ 0 then [run] else []
  | v :: rest, run =>
    if v == 1 then line_groups_of_ones_aux rest (run + 1)
    else if run ≠ 0 then run :: line_groups_of_ones_aux rest 0
    else line_groups_of_ones_aux rest 0

def line_groups_of_ones (line : List Int) : List Nat := line_groups_of_ones_aux line 0

example : line_groups_of_ones [0,1,1,0,1] = [2,1] := by decide

/-- `is_line_fully_known(line)`: no unknowns (`-1`). -/
def is_line_fully_known (line : List Int) : Bool := line.all (fun v => v == 0 || v == 1)

/-- `does_line_satisfy_clues(line, runs)`. -/
def does_line_satisfy_clues (line : List Int) (runs : List Nat) : Bool :=
  if !(is_line_fully_known line) then false
  else line_groups_of_ones line == runs

/-- `is_grid_complete(state)`. -/
def is_grid_complete (state : Grid) : Bool := state.all is_line_fully_known

/-- `is_puzzle_solved(puzzle, state)`. -/
def is_puzzle_solved (puzzle : NonogramPuzzle) (state : Grid) : Bool :=
  if !(is_grid_complete state) then false
  else
    (puzzle.rows.enum.all (fun p => does_line_satisfy_clues (state.getD p.1 []) p.2)) &&
    (puzzle.cols.enum.all (fun p =>
      does_line_satisfy_clues
        ((List.range puzzle.size).map (fun r => cellGet state r p.1)) p.2))

/-- The `while changed:` loop of `solve_nonogram`, with an explicit iteration
budget.  The returned flag is `true` exactly when the loop exited on its own
(solved break or an unproductive round) within the budget; `solverFuelSufficient`
below shows the budget used by `solve_nonogram` is never exhausted, so the
fuelled loop is a faithful rendering of the unbounded source loop. -/
def solveLoop (puzzle : NonogramPuzzle) : Nat → Grid → Grid × Bool
  | 0, state => (state, false)
  | fuel + 1, state =>
    if is_puzzle_solved puzzle state then (state, true)
    else
      let o := apply_overlap_pass puzzle state
      let p := apply_possibility_pass puzzle o.1
      if o.2 || p.2 then solveLoop puzzle fuel p.1
      else (p.1, true)

/-- `solve_nonogram(puzzle)`.  The source annotates the result as `Optional`
but every control path returns the working `state` grid, so the embedding
returns the grid directly. -/
def solve_nonogram (puzzle : NonogramPuzzle) : Grid :=
  (solveLoop puzzle (puzzle.size * puzzle.size + 1)
    (List.replicate puzzle.size (List.replicate puzzle.size (-1)))).1

example :
    solve_nonogram ⟨2, [[1],[1]], [[1],[1]]⟩ = [[-1,-1],[-1,-1]] := by decide

example : solve_nonogram ⟨1, [[1]], [[]]⟩ = [[1]] := by decide

set_option maxRecDepth 4000 in
example :
    solve_nonogram ⟨5, [[5],[1],[5],[1],[5]], [[3,1],[1,1,1],[1,1,1],[1,1,1],[1,3]]⟩ =
    [[1,1,1,1,1],[1,0,0,0,0],[1,1,1,1,1],[0,0,0,0,1],[1,1,1,1,1]] := by decide

/-! ## Claims C1, C2, C3 -/

/-- Claim C1 (code_bug): on the ambiguous 2x2 puzzle whose every clue is
`[1]`, propagation deduces nothing, and `solve_nonogram` returns the
all-Unknown working grid: a partially-filled grid full of `-1` cells, with no
not-solvable indication (the source never returns `None` despite its
`Optional` annotation and docstring). -/
theorem c1_solver_returns_partial_grid :
    solve_nonogram ⟨2, [[1],[1]], [[1],[1]]⟩ = [[-1,-1],[-1,-1]] ∧
    is_grid_complete (solve_nonogram ⟨2, [[1],[1]], [[1],[1]]⟩) = false := by decide

/-- Claim C2 (code_bug): the 4x4 puzzle with rows `[[1,1],[2],[],[]]` and
columns `[[1],[1],[1],[1]]` has the valid solution `1001/0110/0000/0000`
(provably satisfying the validator; it is in fact the unique solution), yet
propagation alone stalls and `solve_nonogram`, having no search layer, returns
a half-unknown grid instead of that solution. -/
theorem c2_propagation_stalls_without_search :
    solve_nonogram ⟨4, [[1,1],[2],[],[]], [[1],[1],[1],[1]]⟩ =
      [[-1,-1,-1,-1],[-1,-1,-1,-1],[0,0,0,0],[0,0,0,0]] ∧
    is_puzzle_solved ⟨4, [[1,1],[2],[],[]], [[1],[1],[1],[1]]⟩
      [[1,0,0,1],[0,1,1,0],[0,0,0,0],[0,0,0,0]] = true ∧
    is_puzzle_solved ⟨4, [[1,1],[2],[],[]], [[1],[1],[1],[1]]⟩
      (solve_nonogram ⟨4, [[1,1],[2],[],[]], [[1],[1],[1],[1]]⟩) = false := by decide

/-- Claim C3 (code_bug): on the contradictory 1x1 puzzle (row clue `[1]`,
column clue `[]`), the column's possibility set becomes empty —
`deduce_from_possibilities` returns `([], [])` — but the propagation loop has
no `Contradiction` outcome: it simply observes no change, exits as a stall,
and the solver returns the (wrong, clue-violating) grid `[[1]]`. -/
theorem c3_contradiction_not_signalled :
    deduce_from_possibilities 1 [] [1] = ([], []) ∧
    solve_nonogram ⟨1, [[1]], [[]]⟩ = [[1]] ∧
    is_puzzle_solved ⟨1, [[1]], [[]]⟩ [[1]] = false := by decide

/-! ## Claim C4: exact characterisation of `overlap_fill_line` -/

/-- Specification-side `earliestStart[i]`: sum of the previous run lengths
plus one separating gap cell per previous run. -/
def earliestStart (runs : List Nat) (i : Nat) : Nat := (runs.take i).sum + i

/-- Specification-side `latestStart[i] = L - (sum(runs[i..]) + (len(runs)-1-i))`. -/
def latestStart (length : Nat) (runs : List Nat) (i : Nat) : Nat :=
  length - ((runs.drop i).sum + (runs.length - 1 - i))

/-- The claim's description of the overlap result: for non-negative slack, the
sorted duplicate-free union over every run `i` with `runs[i] - S > 0` of the
inclusive index ranges `[latestStart i, earliestStart i + runs[i] - 1]`;
empty for negative slack. -/
def overlap_spec (length : Nat) (runs : List Nat) : List Nat :=
  if length < runs.sum + (runs.length - 1) then []
  else
    let S := length - (runs.sum + (runs.length - 1))
    py_sorted_set ((List.range runs.length).flatMap (fun i =>
      if S < runs.getD i 0 then
        List.range' (latestStart length runs i)
          (earliestStart runs i + runs.getD i 0 - latestStart length runs i)
      else []))

lemma flatMap_congr_mem {α β : Type} (l : List α) (f g : α → List β)
    (h : ∀ a ∈ l, f a = g a) : l.flatMap f = l.flatMap g := by
  induction l with
  | nil => rfl
  | cons x xs ih =>
    simp only [List.flatMap_cons, h x (List.mem_cons_self x xs)]
    rw [ih (fun a ha => h a (List.mem_cons_of_mem x ha))]

lemma scanl_add_getD (c : Nat) (l : List Nat) (i : Nat) (h : i ≤ l.length) :
    (l.scanl (· + ·) c).getD i 0 = c + (l.take i).sum := by
  induction l generalizing c i with
  | nil =>
    have h0 : i = 0 := by simpa using h
    subst h0
    simp [List.scanl]
  | cons x xs ih =>
    cases i with
    | zero => simp [List.scanl]
    | succ j =>
      have hj : j ≤ xs.length := by simpa using h
      simp only [List.scanl, List.getD_cons_succ, List.take_succ_cons, List.sum_cons]
      rw [ih (c + x) j hj]
      omega

/-- Claim C4: for every non-empty run list, `overlap_fill_line` returns
exactly the sorted duplicate-free union of the forced ranges
`[latestStart i, earliestStart i + runs[i] - 1]` over the runs with
`runs[i] - slack > 0`, and the empty list when the slack is negative. -/
theorem c4_overlap_fill_line_spec (length : Nat) (runs : List Nat)
    (hne : runs ≠ []) : overlap_fill_line length runs = overlap_spec length runs := by
  unfold overlap_fill_line overlap_spec
  have hruns : runs.isEmpty = false := by
    cases runs with
    | nil => exact absurd rfl hne
    | cons a l => rfl
  rw [hruns]
  simp only [Bool.false_eq_true, if_false]
  have hfold : runs.foldl (· + ·) 0 = runs.sum := (List.sum_eq_foldl).symm
  rw [hfold]
  by_cases hs : length < runs.sum + (runs.length - 1)
  · rw [if_pos hs, if_pos hs]
  · rw [if_neg hs, if_neg hs]
    congr 1
    apply flatMap_congr_mem
    intro i hi
    have hik : i < runs.length := List.mem_range.mp hi
    have htake : (runs.scanl (· + ·) 0).getD i 0 = (runs.take i).sum := by
      rw [scanl_add_getD 0 runs i (Nat.le_of_lt hik)]; omega
    have htotal : (runs.scanl (· + ·) 0).getD runs.length 0 = runs.sum := by
      rw [scanl_add_getD 0 runs runs.length (Nat.le_refl _)]
      simp
    have hsplit : (runs.take i).sum + (runs.drop i).sum = runs.sum := by
      rw [← List.sum_append, List.take_append_drop]
    set r := runs.getD i 0 with hr
    set S := length - (runs.sum + (runs.length - 1)) with hS
    by_cases hrS : r ≤ S
    · rw [if_pos hrS, if_neg (by omega)]
    · rw [if_neg hrS, if_pos (by omega)]
      rw [htake, htotal]
      have hls : latestStart length runs i =
          (runs.take i).sum + i + S := by
        unfold latestStart
        have hdrop : (runs.drop i).sum ≤ runs.sum := by omega
        omega
      have hes : earliestStart runs i = (runs.take i).sum + i := rfl
      have harith : length - ((runs.sum - (runs.take i).sum) + (runs.length - 1 - i)) =
          latestStart length runs i := by
        unfold latestStart
        omega
      rw [harith, hls, hes]
      rw [if_pos (show S < r by omega)]
      congr 1
      omega

/-- Concrete instantiation of C4 at `length = 5`, `runs = [3,1]`. -/
theorem c4_overlap_fill_line_spec_witness :
    ([3,1] : List Nat) ≠ [] ∧ overlap_fill_line 5 [3,1] = overlap_spec 5 [3,1] :=
  ⟨by decide, c4_overlap_fill_line_spec 5 [3,1] (by decide)⟩

/-! ## Canonical decomposition of generated patterns

A pattern produced by `place` is a sequence of gap/run pairs rendered onto the
line: `render [(g0,r0),(g1,r1),...]` is `g0` zeros, `r0` ones, `g1` zeros,
`r1` ones, …; every gap after the first is at least one cell wide. -/

def render : List (Nat × Nat) → List Int
  | [] => []
  | (g, r) :: rest => List.replicate g 0 ++ List.replicate r 1 ++ render rest

/-- A rendered placement padded with trailing zeros to the full line length. -/
def padded (length : Nat) (pl : List (Nat × Nat)) : List Int :=
  render pl ++ List.replicate (length - (render pl).length) 0

lemma render_cons (g r : Nat) (rest : List (Nat × Nat)) :
    render ((g, r) :: rest) = List.replicate g 0 ++ List.replicate r 1 ++ render rest := rfl

lemma render_append (a b : List (Nat × Nat)) : render (a ++ b) = render a ++ render b := by
  induction a with
  | nil => rfl
  | cons x xs ih =>
    obtain ⟨g, r⟩ := x
    simp [render_cons, ih, List.append_assoc]

lemma length_render_cons (g r : Nat) (rest : List (Nat × Nat)) :
    (render ((g, r) :: rest)).length = g + r + (render rest).length := by
  simp [render_cons]; omega

lemma render_mem01 (pl : List (Nat × Nat)) : ∀ v ∈ render pl, v = 0 ∨ v = 1 := by
  induction pl with
  | nil => intro v hv; simp [render] at hv
  | cons x xs ih =>
    obtain ⟨g, r⟩ := x
    intro v hv
    simp only [render_cons, List.mem_append] at hv
    rcases hv with (hv | hv) | hv
    · exact Or.inl (List.eq_of_mem_replicate hv)
    · exact Or.inr (List.eq_of_mem_replicate hv)
    · exact ih v hv

lemma renderLen_ge (pl : List (Nat × Nat)) (h : ∀ x ∈ pl, 1 ≤ x.1) :
    (pl.map Prod.snd).sum + pl.length ≤ (render pl).length := by
  induction pl with
  | nil => simp [render]
  | cons x xs ih =>
    obtain ⟨g, r⟩ := x
    have hg : 1 ≤ g := h (g, r) (List.mem_cons_self _ _)
    have hxs := ih (fun y hy => h y (List.mem_cons_of_mem _ hy))
    simp only [List.map_cons, List.sum_cons, List.length_cons, length_render_cons]
    omega

/-! Small generic helpers about `getD` and `set`. -/

lemma getD_set_self {α : Type} (l : List α) (i : Nat) (v d : α) (h : i < l.length) :
    (l.set i v).getD i d = v := by
  rw [List.getD_eq_getElem?_getD, List.getElem?_set_self (by simpa using h)]
  rfl

lemma getD_set_ne {α : Type} (l : List α) (i j : Nat) (v d : α) (h : i ≠ j) :
    (l.set i v).getD j d = l.getD j d := by
  rw [List.getD_eq_getElem?_getD, List.getElem?_set_ne h, ← List.getD_eq_getElem?_getD]

lemma set_replicate_same (m i : Nat) : (List.replicate m (0 : Int)).set i 0 = List.replicate m 0 := by
  induction m generalizing i with
  | zero => rfl
  | succ n ih =>
    cases i with
    | zero => simp [List.replicate_succ]
    | succ j => simp [List.replicate_succ, ih]

lemma set_replicate_one (m t : Nat) (h : t < m) :
    (List.replicate m (0 : Int)).set t 1 =
      List.replicate t 0 ++ [1] ++ List.replicate (m - t - 1) 0 := by
  induction m generalizing t with
  | zero => omega
  | succ n ih =>
    cases t with
    | zero => simp [List.replicate_succ]
    | succ s =>
      have hs : s < n := by omega
      simp only [List.replicate_succ, List.set_cons_succ, ih s hs]
      simp

lemma padded_length (length : Nat) (pl : List (Nat × Nat))
    (h : (render pl).length ≤ length) : (padded length pl).length = length := by
  unfold padded
  simp
  omega

lemma padded_mem01 (length : Nat) (pl : List (Nat × Nat)) :
    ∀ v ∈ padded length pl, v = 0 ∨ v = 1 := by
  intro v hv
  unfold padded at hv
  rcases List.mem_append.mp hv with h | h
  · exact render_mem01 pl v h
  · exact Or.inl (List.eq_of_mem_replicate h)

lemma tail_append_singleton (x : Nat × Nat) (pl : List (Nat × Nat))
    (htail : ∀ y ∈ pl.tail, 1 ≤ y.1) (hx : pl = [] ∨ 1 ≤ x.1) :
    ∀ y ∈ (pl ++ [x]).tail, 1 ≤ y.1 := by
  cases pl with
  | nil => intro y hy; simp at hy
  | cons a as =>
    intro y hy
    simp only [List.cons_append, List.tail_cons] at hy
    rcases List.mem_append.mp hy with h | h
    · exact htail y h
    · have hyx : y = x := by simpa using h
      subst hyx
      rcases hx with h | h
      · simp at h
      · exact h

/-! Behaviour of `writeBlock` on a line that is zeros from position `A.length` on. -/

lemma writeBlock_length (line : List Int) (s r : Nat) :
    (writeBlock line s r).length = line.length := by
  induction r generalizing line s with
  | zero => rfl
  | succ n ih => simp [writeBlock, ih]

lemma writeBlock_append (A : List Int) (m s r : Nat)
    (hA : A.length ≤ s) (hsr : s + r ≤ A.length + m) :
    writeBlock (A ++ List.replicate m 0) s r =
      A ++ List.replicate (s - A.length) 0 ++ List.replicate r 1 ++
        List.replicate (A.length + m - s - r) 0 := by
  induction r generalizing A m s with
  | zero =>
    show A ++ List.replicate m 0 = _
    conv_lhs =>
      rw [show m = (s - A.length) + (A.length + m - s - 0) from by omega, List.replicate_add]
    simp [List.append_assoc]
  | succ n ih =>
    show writeBlock ((A ++ List.replicate m 0).set s 1) (s + 1) n = _
    have hset : (A ++ List.replicate m 0).set s 1 =
        (A ++ List.replicate (s - A.length) 0 ++ [1]) ++ List.replicate (m - (s - A.length) - 1) 0 := by
      rw [List.set_append, if_neg (by omega)]
      rw [set_replicate_one m (s - A.length) (by omega)]
      simp [List.append_assoc]
    rw [hset]
    rw [ih (A ++ List.replicate (s - A.length) 0 ++ [1]) (m - (s - A.length) - 1) (s + 1)
      (by simp; omega) (by simp; omega)]
    have hA1 : (A ++ List.replicate (s - A.length) 0 ++ [1]).length = s + 1 := by
      simp; omega
    rw [hA1]
    have e2 : s + 1 + (m - (s - A.length) - 1) - (s + 1) - n = A.length + m - s - (n + 1) := by
      omega
    rw [e2]
    have e1 : (s + 1) - (s + 1) = 0 := by omega
    rw [e1]
    simp [List.append_assoc, List.replicate_succ]

lemma ok_block_le (length : Nat) (known : List Int) (s r : Nat)
    (h : ok_block length known s r = true) : s + r ≤ length := by
  unfold ok_block at h
  by_cases hc : s + r > length
  · rw [if_pos hc] at h; exact absurd h (by simp)
  · omega

lemma place_eq_nil_of_pos_gt (length : Nat) (known : List Int) :
    ∀ (runsl : List Nat) (pos : Nat) (line : List Int), length + 1 ≤ pos →
    place length known runsl pos line = [] := by
  intro runsl pos line h
  cases runsl with
  | nil => rfl
  | cons run rest =>
    show (if length < ((run :: rest).foldl (· + ·) 0) + ((run :: rest).length - 1) then []
      else (List.range' pos
        (length - (((run :: rest).foldl (· + ·) 0) + ((run :: rest).length - 1)) + 1 - pos)).flatMap _) = []
    split
    · rfl
    · have hc : length - (((run :: rest).foldl (· + ·) 0) + ((run :: rest).length - 1)) + 1 - pos
          = 0 := by omega
      rw [hc]
      rfl

/-- Master soundness invariant for `place`: every generated pattern is the
rendering of a gap/run placement that extends the placement already written
into `line`, and passes the final `consistent_fill` check. -/
theorem place_sound (length : Nat) (known : List Int) (rest : List Nat) :
    ∀ (pos : Nat) (line : List Int) (pl : List (Nat × Nat)),
    line = padded length pl →
    (render pl).length ≤ length →
    (render pl).length ≤ pos →
    (pl = [] ∨ (render pl).length < pos) →
    (∀ x ∈ pl.tail, 1 ≤ x.1) →
    ∀ p ∈ place length known rest pos line,
      ∃ pl', p = padded length pl' ∧
        (render pl').length ≤ length ∧
        pl'.map Prod.snd = pl.map Prod.snd ++ rest ∧
        (∀ x ∈ pl'.tail, 1 ≤ x.1) ∧
        consistent_fill length known p = true := by
  induction rest with
  | nil =>
    intro pos line pl _ _ _ _ _ p hp
    simp [place] at hp
  | cons run rest ih =>
    intro pos line pl hline hτlen hτpos hsep htail p hp
    rw [place] at hp
    by_cases hfeas : length < ((run :: rest).foldl (· + ·) 0) + ((run :: rest).length - 1)
    · rw [if_pos hfeas] at hp; simp at hp
    · rw [if_neg hfeas] at hp
      rw [List.mem_flatMap] at hp
      obtain ⟨position, hposmem, hp⟩ := hp
      rw [List.mem_range'_1] at hposmem
      obtain ⟨hpos_ge, _⟩ := hposmem
      by_cases hok : ok_block length known position run = true
      swap
      · rw [if_neg (by simpa using hok)] at hp; simp at hp
      rw [if_pos hok] at hp
      have hblock_le : position + run ≤ length := ok_block_le length known position run hok
      have hτpos' : (render pl).length ≤ position := Nat.le_trans hτpos hpos_ge
      -- the block write turns `line` into the rendering of the extended placement
      set g := position - (render pl).length with hg
      set pl1 := pl ++ [(g, run)] with hpl1
      have hrender1 : render pl1 = render pl ++ (List.replicate g 0 ++ List.replicate run 1) := by
        rw [hpl1, render_append]
        simp [render]
      have hτ1 : (render pl1).length = position + run := by
        rw [hrender1]
        simp
        omega
      have hline1 : writeBlock line position run = padded length pl1 := by
        rw [hline]
        unfold padded
        rw [hτ1, hrender1, hg]
        rw [writeBlock_append (render pl) (length - (render pl).length) position run hτpos'
          (by omega)]
        have e : (render pl).length + (length - (render pl).length) - position - run
            = length - (position + run) := by omega
        rw [e]
        simp [List.append_assoc]
      have htail1 : ∀ y ∈ pl1.tail, 1 ≤ y.1 :=
        tail_append_singleton (g, run) pl htail
          (by
            rcases hsep with h | h
            · exact Or.inl h
            · right; simp only; omega)
      have hsnds1 : pl1.map Prod.snd = pl.map Prod.snd ++ [run] := by
        rw [hpl1, List.map_append]
        rfl
      cases hrest : rest.isEmpty with
      | true =>
        rw [hrest] at hp
        simp only [if_true] at hp
        have hrestnil : rest = [] := List.isEmpty_iff.mp hrest
        by_cases hcons : consistent_fill length known (writeBlock line position run) = true
        swap
        · rw [if_neg (by simpa using hcons)] at hp; simp at hp
        rw [if_pos hcons] at hp
        have hpeq : p = writeBlock line position run := by simpa using hp
        refine ⟨pl1, ?_, ?_, ?_, htail1, ?_⟩
        · rw [hpeq, hline1]
        · omega
        · rw [hsnds1, hrestnil]
        · rw [hpeq]; exact hcons
      | false =>
        rw [hrest] at hp
        simp only [Bool.false_eq_true, if_false] at hp
        by_cases hgap : (position + run < length && (known.getD (position + run) (-1) == 1)) = true
        · rw [if_pos hgap] at hp; simp at hp
        rw [if_neg hgap] at hp
        by_cases hiar : position + run < length
        swap
        · rw [place_eq_nil_of_pos_gt length known rest (position + run + 1) _ (by omega)] at hp
          · simp at hp
        · have hgline : (if position + run < length
              then (writeBlock line position run).set (position + run) 0
              else writeBlock line position run) = padded length pl1 := by
            rw [if_pos hiar, hline1]
            unfold padded
            rw [List.set_append, if_neg (by rw [hτ1]; omega)]
            rw [hτ1]
            have : position + run - (position + run) = 0 := by omega
            rw [this, set_replicate_same]
          rw [hgline] at hp
          by_cases hchk : ((List.range' pos (position + run - pos)).all
              (fun i => !((known.getD i (-1) == 1) && !((padded length pl1).getD i 0 == 1)))) = true
          swap
          · rw [if_neg (by simpa using hchk)] at hp; simp at hp
          rw [if_pos hchk] at hp
          obtain ⟨pl2, hp2, hτ2, hsnds2, htail2, hcons2⟩ :=
            ih (position + run + 1) (padded length pl1) pl1 rfl (by omega)
              (by omega) (Or.inr (by omega)) htail1 p hp
          refine ⟨pl2, hp2, hτ2, ?_, htail2, hcons2⟩
          rw [hsnds2, hsnds1]
          simp

/-- Soundness at the entry point: every enumerated pattern for a non-empty run
list is a rendered placement whose run lengths are exactly `runs` and which
passed the `consistent_fill` check. -/
theorem enumerate_sound (length : Nat) (runs : List Nat) (known : List Int)
    (hne : runs ≠ []) :
    ∀ p ∈ enumerate_line_patterns length runs known,
      ∃ pl, p = padded length pl ∧
        (render pl).length ≤ length ∧
        pl.map Prod.snd = runs ∧
        (∀ x ∈ pl.tail, 1 ≤ x.1) ∧
        consistent_fill length known p = true := by
  intro p hp
  unfold enumerate_line_patterns at hp
  rw [if_neg (by simpa using hne)] at hp
  have := place_sound length known runs 0 (List.replicate length 0) []
    (by unfold padded; simp [render])
    (by simp [render]) (by simp [render]) (Or.inl rfl) (by simp) p hp
  obtain ⟨pl, h1, h2, h3, h4, h5⟩ := this
  exact ⟨pl, h1, h2, by simpa using h3, h4, h5⟩

/-! Computing the maximal 1-blocks of a rendered placement. -/

lemma groups_aux_zeros_front (m : Nat) (t : List Int) :
    line_groups_of_ones_aux (List.replicate m 0 ++ t) 0 = line_groups_of_ones_aux t 0 := by
  induction m with
  | zero => rfl
  | succ n ih => simpa [List.replicate_succ, line_groups_of_ones_aux] using ih

lemma groups_aux_ones_front (r : Nat) (c : Nat) (t : List Int) :
    line_groups_of_ones_aux (List.replicate r 1 ++ t) c = line_groups_of_ones_aux t (c + r) := by
  induction r generalizing c with
  | zero => rfl
  | succ n ih =>
    simp only [List.replicate_succ, List.cons_append, line_groups_of_ones_aux]
    rw [if_pos (by decide)]
    rw [show (List.replicate n (1 : Int)).append t = List.replicate n (1 : Int) ++ t from rfl]
    rw [ih (c + 1)]
    congr 1
    omega

lemma groups_aux_zeros_zero (m : Nat) :
    line_groups_of_ones_aux (List.replicate m 0) 0 = [] := by
  induction m with
  | zero => rfl
  | succ n ih => simpa [List.replicate_succ, line_groups_of_ones_aux] using ih

lemma groups_aux_zeros_pos (m c : Nat) (hc : c ≠ 0) :
    line_groups_of_ones_aux (List.replicate m 0) c = [c] := by
  cases m with
  | zero => simp [line_groups_of_ones_aux, hc]
  | succ n =>
    simp only [List.replicate_succ, line_groups_of_ones_aux]
    rw [if_neg (by decide), if_pos hc, groups_aux_zeros_zero]

lemma groups_aux_emit (r : Nat) (hr : r ≠ 0) (rest : List (Nat × Nat)) (m : Nat)
    (hgaps : ∀ x ∈ rest, 1 ≤ x.1) :
    line_groups_of_ones_aux (render rest ++ List.replicate m 0) r =
      r :: line_groups_of_ones_aux (render rest ++ List.replicate m 0) 0 := by
  cases rest with
  | nil =>
    show line_groups_of_ones_aux (render [] ++ List.replicate m 0) r = _
    simp only [render, List.nil_append]
    rw [groups_aux_zeros_pos m r hr, groups_aux_zeros_zero]
  | cons x rest' =>
    obtain ⟨g, r'⟩ := x
    have hg : 1 ≤ g := hgaps (g, r') (List.mem_cons_self _ _)
    obtain ⟨g', rfl⟩ : ∃ g', g = g' + 1 := ⟨g - 1, by omega⟩
    simp only [render_cons, List.replicate_succ, List.cons_append, List.append_assoc]
    simp only [line_groups_of_ones_aux]
    rw [if_neg (by decide), if_pos hr, if_neg (by decide), if_neg (by simp)]

lemma groups_of_padded (pl : List (Nat × Nat)) (m : Nat)
    (hsnd : ∀ x ∈ pl, 1 ≤ x.2) (htail : ∀ x ∈ pl.tail, 1 ≤ x.1) :
    line_groups_of_ones (render pl ++ List.replicate m 0) = pl.map Prod.snd := by
  induction pl with
  | nil =>
    show line_groups_of_ones_aux (render [] ++ List.replicate m 0) 0 = []
    simp only [render, List.nil_append]
    exact groups_aux_zeros_zero m
  | cons x rest ih =>
    obtain ⟨g, r⟩ := x
    have hr : 1 ≤ r := hsnd (g, r) (List.mem_cons_self _ _)
    have hgaps : ∀ y ∈ rest, 1 ≤ y.1 := by
      intro y hy; exact htail y (by simpa using hy)
    show line_groups_of_ones_aux _ 0 = _
    simp only [render_cons, List.append_assoc]
    rw [groups_aux_zeros_front, groups_aux_ones_front, Nat.zero_add]
    rw [groups_aux_emit r (by omega) rest m hgaps]
    have ihr := ih (fun y hy => hsnd y (List.mem_cons_of_mem _ hy))
      (fun y hy => hgaps y (List.mem_of_mem_tail hy))
    show r :: line_groups_of_ones_aux _ 0 = _
    rw [show line_groups_of_ones_aux (render rest ++ List.replicate m 0) 0 =
      line_groups_of_ones (render rest ++ List.replicate m 0) from rfl]
    rw [ihr]
    rfl

lemma getD_of_lt {α : Type} (l : List α) (i : Nat) (d : α) (h : i < l.length) :
    l.getD i d = l.get ⟨i, h⟩ := by
  rw [List.getD_eq_getElem?_getD, List.getElem?_eq_getElem h]
  rfl

lemma getD_replicate_zero (L i : Nat) : (List.replicate L (0 : Int)).getD i 0 = 0 := by
  induction L generalizing i with
  | zero => cases i <;> rfl
  | succ n ih =>
    cases i with
    | zero => rfl
    | succ j =>
      rw [List.replicate_succ]
      exact ih j

lemma consistent_fill_parts (length : Nat) (known p : List Int)
    (h : consistent_fill length known p = true) :
    ∀ i, i < length →
      (known.getD i (-1) = 0 → p.getD i 0 = 0) ∧ (known.getD i (-1) = 1 → p.getD i 0 = 1) := by
  intro i hi
  unfold consistent_fill at h
  rw [List.all_eq_true] at h
  have := h i (List.mem_range.mpr hi)
  constructor
  · intro h0
    rw [h0] at this
    simp only [beq_iff_eq, Bool.or_eq_true] at this
    rcases this with hc | hc
    · norm_num at hc
    · omega
  · intro h1
    rw [h1] at this
    simp only [beq_iff_eq, Bool.or_eq_true] at this
    rcases this with hc | hc
    · norm_num at hc
    · omega

/-- Claim C6 (counterexample to the claim as frozen): for the run list `[0]`
(an entry of length zero), the generator yields the all-zero pattern, whose
maximal blocks of 1s are `[]`, not `[0]`. -/
theorem c6_counterexample :
    [(0 : Int)] ∈ enumerate_line_patterns 1 [0] [-1] ∧
    line_groups_of_ones [(0 : Int)] ≠ [0] := by decide

/-- Claim C6 (amended: every run length is at least 1, as the data-model
invariant requires): every generated pattern has maximal 1-blocks exactly
`runs`, never fills a known-Empty cell, fills every known-Filled cell; and for
an empty run list the all-zero pattern is produced iff no cell is marked
Filled. -/
theorem c6_generator_patterns_amended (length : Nat) (runs : List Nat) (known : List Int)
    (hpos : ∀ r ∈ runs, 1 ≤ r)
    (hlen : known.length = length)
    (hentries : ∀ v ∈ known, v = -1 ∨ v = 0 ∨ v = 1) :
    (∀ p ∈ enumerate_line_patterns length runs known,
       line_groups_of_ones p = runs ∧
       (∀ i, i < length → known.getD i (-1) = 0 → p.getD i 0 = 0) ∧
       (∀ i, i < length → known.getD i (-1) = 1 → p.getD i 0 = 1)) ∧
    (runs = [] →
      (enumerate_line_patterns length runs known = [List.replicate length 0] ↔
       ∀ i, i < length → ¬ known.getD i (-1) = 1)) := by
  constructor
  · intro p hp
    by_cases hruns : runs = []
    · subst hruns
      unfold enumerate_line_patterns at hp
      rw [if_pos (by rfl)] at hp
      by_cases hall : known.all (fun k => k == 0 || k == -1) = true
      swap
      · rw [if_neg (by simpa using hall)] at hp; simp at hp
      rw [if_pos hall] at hp
      have hpeq : p = List.replicate length 0 := by simpa using hp
      subst hpeq
      refine ⟨?_, ?_, ?_⟩
      · show line_groups_of_ones_aux (List.replicate length 0) 0 = []
        exact groups_aux_zeros_zero length
      · intro i hi _
        exact getD_replicate_zero length i
      · intro i hi h1
        exfalso
        rw [List.all_eq_true] at hall
        have hik : i < known.length := by omega
        have := hall (known.get ⟨i, hik⟩) (List.mem_iff_get.mpr ⟨⟨i, hik⟩, rfl⟩)
        rw [getD_of_lt known i (-1) hik] at h1
        rw [h1] at this
        simp at this
    · obtain ⟨pl, hpad, hτ, hsnds, htail, hcons⟩ :=
        enumerate_sound length runs known hruns p hp
      refine ⟨?_, fun i hi => (consistent_fill_parts length known p hcons i hi).1,
        fun i hi => (consistent_fill_parts length known p hcons i hi).2⟩
      rw [hpad]
      unfold padded
      rw [groups_of_padded pl _ ?_ htail]
      · exact hsnds
      · intro x hx
        exact hpos x.2 (hsnds ▸ List.mem_map_of_mem Prod.snd hx)
  · intro hruns
    subst hruns
    unfold enumerate_line_patterns
    rw [if_pos (by rfl)]
    by_cases hall : known.all (fun k => k == 0 || k == -1) = true
    · rw [if_pos hall]
      refine ⟨fun _ => ?_, fun _ => rfl⟩
      intro i hi hcontra
      rw [List.all_eq_true] at hall
      have hik : i < known.length := by omega
      have hmem := hall (known.get ⟨i, hik⟩) (List.mem_iff_get.mpr ⟨⟨i, hik⟩, rfl⟩)
      rw [getD_of_lt known i (-1) hik] at hcontra
      rw [hcontra] at hmem
      simp at hmem
    · rw [if_neg (by simpa using hall)]
      constructor
      · intro hcontra
        exact absurd hcontra.symm (List.cons_ne_nil _ _)
      · intro hnone
        exfalso
        rw [List.all_eq_true] at hall
        push_neg at hall
        obtain ⟨v, hv, hvbad⟩ := hall
        have hv1 : v = 1 := by
          rcases hentries v hv with h | h | h
          · rw [h] at hvbad; simp at hvbad
          · rw [h] at hvbad; simp at hvbad
          · exact h
        obtain ⟨n, hvn⟩ := List.mem_iff_get.mp hv
        have hil : n.1 < length := by have := n.2; omega
        apply hnone n.1 hil
        rw [getD_of_lt known n.1 (-1) n.2]
        rw [hv1] at hvn
        exact hvn

/-- Concrete instantiation of the amended C6 at `length = 5`, `runs = [2]`,
no prior knowledge. -/
theorem c6_generator_patterns_amended_witness :
    ((∀ r ∈ [2], 1 ≤ r) ∧ ([(-1 : Int),-1,-1,-1,-1].length = 5) ∧
      (∀ v ∈ [(-1 : Int),-1,-1,-1,-1], v = -1 ∨ v = 0 ∨ v = 1)) ∧
    ((∀ p ∈ enumerate_line_patterns 5 [2] [-1,-1,-1,-1,-1],
       line_groups_of_ones p = [2] ∧
       (∀ i, i < 5 → [(-1 : Int),-1,-1,-1,-1].getD i (-1) = 0 → p.getD i 0 = 0) ∧
       (∀ i, i < 5 → [(-1 : Int),-1,-1,-1,-1].getD i (-1) = 1 → p.getD i 0 = 1)) ∧
    ([2] = ([] : List Nat) →
      (enumerate_line_patterns 5 [2] [-1,-1,-1,-1,-1] = [List.replicate 5 0] ↔
       ∀ i, i < 5 → ¬ [(-1 : Int),-1,-1,-1,-1].getD i (-1) = 1))) :=
  ⟨⟨by decide, by decide, by decide⟩,
   c6_generator_patterns_amended 5 [2] [-1,-1,-1,-1,-1] (by decide) (by decide) (by decide)⟩

/-! ## Claim C7: characterisation of `deduce_from_possibilities` -/

lemma patterns_shape (length : Nat) (runs : List Nat) (known : List Int) :
    ∀ p ∈ enumerate_line_patterns length runs known,
      p.length = length ∧ ∀ v ∈ p, v = 0 ∨ v = 1 := by
  intro p hp
  by_cases hruns : runs = []
  · subst hruns
    unfold enumerate_line_patterns at hp
    rw [if_pos (by rfl)] at hp
    by_cases hall : known.all (fun k => k == 0 || k == -1) = true
    swap
    · rw [if_neg (by simpa using hall)] at hp; simp at hp
    rw [if_pos hall] at hp
    have hpeq : p = List.replicate length 0 := by simpa using hp
    subst hpeq
    exact ⟨by simp, fun v hv => Or.inl (List.eq_of_mem_replicate hv)⟩
  · obtain ⟨pl, hpad, hτ, _, _, _⟩ := enumerate_sound length runs known hruns p hp
    subst hpad
    exact ⟨padded_length length pl hτ, padded_mem01 length pl⟩

lemma bump_fold_len (p : List Int) (L : List Nat) (oc : List Nat) :
    (L.foldl (fun oc i => if p.getD i 0 == 1 then oc.set i (oc.getD i 0 + 1) else oc) oc).length
      = oc.length := by
  induction L generalizing oc with
  | nil => rfl
  | cons x xs ih =>
    simp only [List.foldl_cons]
    rw [ih]
    by_cases hx : p.getD x 0 == 1
    · rw [if_pos hx]; simp
    · rw [if_neg hx]

lemma bump_range_getD (p : List Int) (cnt : Nat) :
    ∀ (s : Nat) (oc : List Nat) (j : Nat),
    ((List.range' s cnt).foldl
        (fun oc i => if p.getD i 0 == 1 then oc.set i (oc.getD i 0 + 1) else oc) oc).getD j 0 =
      if s ≤ j ∧ j < s + cnt ∧ j < oc.length ∧ p.getD j 0 = 1 then oc.getD j 0 + 1
      else oc.getD j 0 := by
  induction cnt with
  | zero =>
    intro s oc j
    rw [if_neg (by omega)]
    rfl
  | succ n ih =>
    intro s oc j
    rw [List.range'_succ, List.foldl_cons]
    rw [ih (s + 1) _ j]
    by_cases hs : p.getD s 0 == 1
    · rw [if_pos hs]
      by_cases hjs : j = s
      · subst hjs
        rw [List.length_set]
        by_cases hjo : j < oc.length
        · rw [if_neg (by omega), if_pos (by refine ⟨by omega, by omega, hjo, by simpa using hs⟩)]
          rw [getD_set_self oc j _ 0 hjo]
        · rw [if_neg (by omega), if_neg (fun h => hjo h.2.2.1)]
          rw [List.getD_eq_getElem?_getD (oc.set j (oc.getD j 0 + 1)),
            List.getElem?_eq_none (by rw [List.length_set]; omega)]
          rw [List.getD_eq_getElem?_getD oc, List.getElem?_eq_none (by omega)]
      · rw [List.length_set, getD_set_ne oc s j _ 0 (by omega)]
        by_cases hcond : s + 1 ≤ j ∧ j < s + 1 + n ∧ j < oc.length ∧ p.getD j 0 = 1
        · rw [if_pos hcond, if_pos ⟨by omega, by omega, hcond.2.2.1, hcond.2.2.2⟩]
        · rw [if_neg hcond,
            if_neg (fun h => hcond ⟨by omega, by omega, h.2.2.1, h.2.2.2⟩)]
    · rw [if_neg hs]
      by_cases hcond : s + 1 ≤ j ∧ j < s + 1 + n ∧ j < oc.length ∧ p.getD j 0 = 1
      · rw [if_pos hcond, if_pos ⟨by omega, by omega, hcond.2.2.1, hcond.2.2.2⟩]
      · rw [if_neg hcond]
        by_cases hcond2 : s ≤ j ∧ j < s + (n + 1) ∧ j < oc.length ∧ p.getD j 0 = 1
        · exfalso
          have hjs : j = s := by omega
          subst hjs
          exact hs (by simpa using hcond2.2.2.2)
        · rw [if_neg hcond2]

lemma bumpOnes_getD (oc : List Nat) (p : List Int) (j : Nat) :
    (bumpOnes oc p).getD j 0 =
      if j < oc.length ∧ p.getD j 0 = 1 then oc.getD j 0 + 1 else oc.getD j 0 := by
  unfold bumpOnes
  rw [List.range_eq_range', bump_range_getD p p.length 0 oc j]
  by_cases hc : j < oc.length ∧ p.getD j 0 = 1
  · by_cases hjp : j < p.length
    · rw [if_pos ⟨by omega, by omega, hc.1, hc.2⟩, if_pos hc]
    · exfalso
      have hp0 : p.getD j 0 = 0 := by
        rw [List.getD_eq_getElem?_getD, List.getElem?_eq_none (by simpa using hjp)]
        rfl
      rw [hp0] at hc
      exact absurd hc.2 (by norm_num)
  · rw [if_neg (fun h => hc ⟨h.2.2.1, h.2.2.2⟩), if_neg hc]

lemma bumpOnes_len (oc : List Nat) (p : List Int) : (bumpOnes oc p).length = oc.length :=
  bump_fold_len p _ oc

lemma ones_count_foldl (patterns : List (List Int)) (j : Nat) :
    ∀ (oc : List Nat), j < oc.length →
    (patterns.foldl bumpOnes oc).getD j 0 =
      oc.getD j 0 + patterns.countP (fun p => p.getD j 0 == 1) := by
  induction patterns with
  | nil => intro oc _; simp
  | cons p ps ih =>
    intro oc hj
    rw [List.foldl_cons, ih (bumpOnes oc p) (by rw [bumpOnes_len]; omega)]
    rw [bumpOnes_getD oc p j]
    rw [List.countP_cons]
    by_cases hp : p.getD j 0 = 1
    · rw [if_pos ⟨hj, hp⟩, if_pos (by simpa using hp)]
      omega
    · rw [if_neg (by intro h; exact hp h.2), if_neg (by simpa using hp)]
      omega

lemma getD_replicate_self {α : Type} (L i : Nat) (a : α) :
    (List.replicate L a).getD i a = a := by
  induction L generalizing i with
  | zero => cases i <;> rfl
  | succ n ih =>
    cases i with
    | zero => rfl
    | succ j =>
      rw [List.replicate_succ]
      exact ih j

lemma deduce_mem_fill (length : Nat) (runs : List Nat) (known : List Int)
    (hne : enumerate_line_patterns length runs known ≠ []) (j : Nat) :
    j ∈ (deduce_from_possibilities length runs known).1 ↔
      j < length ∧ ∀ p ∈ enumerate_line_patterns length runs known, p.getD j 0 = 1 := by
  unfold deduce_from_possibilities
  rw [if_neg (by simpa using hne)]
  simp only [List.mem_filter, List.mem_range]
  constructor
  · rintro ⟨hj, hcount⟩
    refine ⟨hj, ?_⟩
    rw [ones_count_foldl _ j _ (by simpa using hj)] at hcount
    rw [getD_replicate_self, Nat.zero_add] at hcount
    have hc : (enumerate_line_patterns length runs known).countP (fun p => p.getD j 0 == 1) =
        (enumerate_line_patterns length runs known).length := by simpa using hcount
    have hall := List.countP_eq_length.mp hc
    intro p hp
    simpa using hall p hp
  · rintro ⟨hj, hall⟩
    refine ⟨hj, ?_⟩
    rw [ones_count_foldl _ j _ (by simpa using hj)]
    rw [getD_replicate_self, Nat.zero_add]
    have hc : (enumerate_line_patterns length runs known).countP (fun p => p.getD j 0 == 1) =
        (enumerate_line_patterns length runs known).length :=
      List.countP_eq_length.mpr (fun p hp => by simpa using hall p hp)
    rw [hc]
    simp

lemma deduce_mem_empty (length : Nat) (runs : List Nat) (known : List Int)
    (hne : enumerate_line_patterns length runs known ≠ []) (j : Nat) :
    j ∈ (deduce_from_possibilities length runs known).2 ↔
      j < length ∧ ∀ p ∈ enumerate_line_patterns length runs known, p.getD j 0 = 0 := by
  unfold deduce_from_possibilities
  rw [if_neg (by simpa using hne)]
  simp only [List.mem_filter, List.mem_range]
  constructor
  · rintro ⟨hj, hcount⟩
    refine ⟨hj, ?_⟩
    rw [ones_count_foldl _ j _ (by simpa using hj)] at hcount
    rw [getD_replicate_self, Nat.zero_add] at hcount
    have hz : ∀ p ∈ enumerate_line_patterns length runs known, ¬ (p.getD j 0 = 1) := by
      simpa using hcount
    intro p hp
    have hne1 : ¬ (p.getD j 0 = 1) := hz p hp
    obtain ⟨hlen, h01⟩ := patterns_shape length runs known p hp
    have hjp : j < p.length := by omega
    rw [getD_of_lt p j 0 hjp] at hne1 ⊢
    rcases h01 (p.get ⟨j, hjp⟩) (List.mem_iff_get.mpr ⟨⟨j, hjp⟩, rfl⟩) with h | h
    · exact h
    · exact absurd h hne1
  · rintro ⟨hj, hall⟩
    refine ⟨hj, ?_⟩
    rw [ones_count_foldl _ j _ (by simpa using hj)]
    rw [getD_replicate_self, Nat.zero_add]
    have hc : (enumerate_line_patterns length runs known).countP (fun p => p.getD j 0 == 1) = 0 :=
      List.countP_eq_zero.mpr (fun p hp => by
        rw [hall p hp]
        simp)
    rw [hc]
    simp

/-- Claim C7: for a non-empty possibility set, `must_fill` is exactly the
positions filled in all enumerated patterns and `must_empty` exactly the
positions filled in none; an empty possibility set yields `([], [])`; and in
all cases the two lists are disjoint with combined size at most `length`. -/
theorem c7_deduce_characterisation (length : Nat) (runs : List Nat) (known : List Int) :
    (enumerate_line_patterns length runs known ≠ [] →
      ((∀ j, j ∈ (deduce_from_possibilities length runs known).1 ↔
         j < length ∧ ∀ p ∈ enumerate_line_patterns length runs known, p.getD j 0 = 1) ∧
       (∀ j, j ∈ (deduce_from_possibilities length runs known).2 ↔
         j < length ∧ ∀ p ∈ enumerate_line_patterns length runs known, p.getD j 0 = 0))) ∧
    (enumerate_line_patterns length runs known = [] →
      deduce_from_possibilities length runs known = ([], [])) ∧
    (∀ j, j ∈ (deduce_from_possibilities length runs known).1 →
       j ∉ (deduce_from_possibilities length runs known).2) ∧
    (deduce_from_possibilities length runs known).1.length +
      (deduce_from_possibilities length runs known).2.length ≤ length := by
  have hempty : enumerate_line_patterns length runs known = [] →
      deduce_from_possibilities length runs known = ([], []) := by
    intro h
    unfold deduce_from_possibilities
    rw [h]
    rfl
  refine ⟨fun hne => ⟨deduce_mem_fill length runs known hne,
    deduce_mem_empty length runs known hne⟩, hempty, ?_, ?_⟩
  · intro j hj1 hj2
    by_cases hne : enumerate_line_patterns length runs known = []
    · rw [hempty hne] at hj1
      simp at hj1
    · obtain ⟨p, hp⟩ := List.exists_mem_of_ne_nil _ hne
      have h1 := ((deduce_mem_fill length runs known hne j).mp hj1).2 p hp
      have h0 := ((deduce_mem_empty length runs known hne j).mp hj2).2 p hp
      rw [h1] at h0
      norm_num at h0
  · by_cases hne : enumerate_line_patterns length runs known = []
    · rw [hempty hne]
      simp
    · unfold deduce_from_possibilities
      rw [if_neg (by simpa using hne)]
      simp only
      rw [← List.countP_eq_length_filter, ← List.countP_eq_length_filter]
      set oc := (enumerate_line_patterns length runs known).foldl bumpOnes
        (List.replicate length 0) with hoc
      set lp := (enumerate_line_patterns length runs known).length with hlp
      have hlp1 : 1 ≤ lp := by
        rw [hlp]
        cases henum : enumerate_line_patterns length runs known with
        | nil => exact absurd henum hne
        | cons a l => simp
      have hmono : (List.range length).countP (fun i => oc.getD i 0 == 0) ≤
          (List.range length).countP (fun i => decide ¬((oc.getD i 0 == lp) = true)) := by
        apply List.countP_mono_left
        intro x _ hx
        have hx' : oc.getD x 0 = 0 := by simpa using hx
        simp only [decide_eq_true_eq, beq_iff_eq]
        rw [hx']
        omega
      have hsplit := List.length_eq_countP_add_countP (fun i => oc.getD i 0 == lp)
        (List.range length)
      rw [List.length_range] at hsplit
      omega

/-- Concrete instantiation of C7 at `length = 5`, `runs = [3,1]`, no prior
knowledge (possibility set `[[1,1,1,0,1]]`, non-empty). -/
theorem c7_deduce_characterisation_witness :
    enumerate_line_patterns 5 [3,1] (List.replicate 5 (-1)) ≠ [] ∧
    (0 ∈ (deduce_from_possibilities 5 [3,1] (List.replicate 5 (-1))).1 ↔
      0 < 5 ∧ ∀ p ∈ enumerate_line_patterns 5 [3,1] (List.replicate 5 (-1)), p.getD 0 0 = 1) :=
  ⟨by decide,
   ((c7_deduce_characterisation 5 [3,1] (List.replicate 5 (-1))).1 (by decide)).1 0⟩

/-! ## Claim C5: overlap deduction is a sound under-approximation -/

lemma mem_py_sorted_set (l : List Nat) (j : Nat) : j ∈ py_sorted_set l ↔ j ∈ l := by
  unfold py_sorted_set
  rw [(List.perm_insertionSort _ _).mem_iff, List.mem_dedup]

lemma getD_block (A B : List Int) (r j : Nat) (h1 : A.length ≤ j) (h2 : j < A.length + r) :
    (A ++ (List.replicate r 1 ++ B)).getD j 0 = 1 := by
  rw [List.getD_append_right A _ 0 j h1]
  rw [List.getD_append _ B 0 _ (by rw [List.length_replicate]; omega)]
  rw [getD_of_lt _ _ _ (by rw [List.length_replicate]; omega)]
  exact List.get_replicate 1 _


/-- Strong coverage: when every gap (including the leading one) is at least 1,
block `i` of a rendering covers `[latestStart i, earliestStart i + runs i]`. -/
lemma render_cov_strong :
    ∀ (pl : List (Nat × Nat)) (length i j : Nat),
    (∀ x ∈ pl, 1 ≤ x.1) →
    (render pl).length ≤ length →
    i < pl.length →
    1 ≤ (pl.map Prod.snd).getD i 0 →
    latestStart length (pl.map Prod.snd) i ≤ j →
    j ≤ earliestStart (pl.map Prod.snd) i + (pl.map Prod.snd).getD i 0 →
    (render pl ++ List.replicate (length - (render pl).length) 0).getD j 0 = 1 := by
  intro pl
  induction pl with
  | nil => intro length i j _ _ hik; simp at hik
  | cons x rest ih =>
    obtain ⟨g, r⟩ := x
    intro length i j hgaps hτlen hik hr1 hls hes
    have hg : 1 ≤ g := hgaps (g, r) (List.mem_cons_self _ _)
    have hgaps' : ∀ y ∈ rest, 1 ≤ y.1 := fun y hy => hgaps y (List.mem_cons_of_mem _ hy)
    have hτ : (render ((g, r) :: rest)).length = g + r + (render rest).length :=
      length_render_cons g r rest
    have hrge := renderLen_ge rest hgaps'
    have hsplitlist :
        render ((g, r) :: rest) ++
            List.replicate (length - (render ((g, r) :: rest)).length) 0 =
          (List.replicate g 0 ++ (List.replicate r 1 ++
            (render rest ++
              List.replicate ((length - (g + r)) - (render rest).length) 0))) := by
      rw [render_cons]
      have hcount : length -
          (List.replicate g (0 : Int) ++ List.replicate r (1 : Int) ++ render rest).length =
          (length - (g + r)) - (render rest).length := by
        simp only [List.length_append, List.length_replicate]
        omega
      rw [hcount]
      simp [List.append_assoc]
    rw [hsplitlist]
    cases i with
    | zero =>
      have hes' : j ≤ r := by
        unfold earliestStart at hes
        simpa using hes
      have hls' : length - ((r + (rest.map Prod.snd).sum) + rest.length) ≤ j := by
        unfold latestStart at hls
        simp only [List.map_cons, List.drop_zero, List.sum_cons, List.length_cons,
          List.length_map, Nat.add_sub_cancel, Nat.sub_zero] at hls
        exact hls
      have hgj : g ≤ j := by omega
      exact getD_block (List.replicate g 0) _ r j (by simpa using hgj)
        (by rw [List.length_replicate]; omega)
    | succ n =>
      have hik' : n < rest.length := by simpa using hik
      have hr1' : 1 ≤ (rest.map Prod.snd).getD n 0 := by
        simpa using hr1
      have hdropsum : ((rest.map Prod.snd).drop n).sum ≤ (rest.map Prod.snd).sum := by
        have := List.sum_take_add_sum_drop (rest.map Prod.snd) n
        omega
      have hlsT : latestStart length (List.map Prod.snd ((g, r) :: rest)) (n + 1) =
          latestStart (length - (g + r)) (rest.map Prod.snd) n + (g + r) := by
        unfold latestStart
        simp only [List.map_cons, List.drop_succ_cons, List.length_cons, List.length_map]
        have h1 : rest.length + 1 - 1 - (n + 1) = rest.length - 1 - n := by omega
        rw [h1]
        omega
      have hesT : earliestStart (List.map Prod.snd ((g, r) :: rest)) (n + 1) =
          earliestStart (rest.map Prod.snd) n + r + 1 := by
        unfold earliestStart
        simp only [List.map_cons, List.take_succ_cons, List.sum_cons]
        omega
      have hrT : (List.map Prod.snd ((g, r) :: rest)).getD (n + 1) 0 =
          (rest.map Prod.snd).getD n 0 := by simp
      rw [hlsT] at hls
      rw [hesT, hrT] at hes
      rw [hrT] at hr1
      have hmain := ih (length - (g + r)) n (j - (g + r)) hgaps' (by omega) hik' hr1'
        (by omega) (by omega)
      have hjgr : g + r ≤ j := by omega
      rw [List.getD_append_right (List.replicate g 0) _ 0 j
        (by rw [List.length_replicate]; omega)]
      rw [List.getD_append_right (List.replicate r 1) _ 0 _
        (by rw [List.length_replicate, List.length_replicate]; omega)]
      simp only [List.length_replicate]
      have hidx : j - g - r = j - (g + r) := by omega
      rw [hidx]
      exact hmain

/-- Weak coverage: with a free leading gap, block `i` covers
`[latestStart i, earliestStart i + runs i - 1]` — exactly the overlap range. -/
lemma render_cov (pl : List (Nat × Nat)) (length i j : Nat)
    (htail : ∀ x ∈ pl.tail, 1 ≤ x.1)
    (hτlen : (render pl).length ≤ length)
    (hik : i < pl.length)
    (hr1 : 1 ≤ (pl.map Prod.snd).getD i 0)
    (hls : latestStart length (pl.map Prod.snd) i ≤ j)
    (hes : j ≤ earliestStart (pl.map Prod.snd) i + (pl.map Prod.snd).getD i 0 - 1) :
    (render pl ++ List.replicate (length - (render pl).length) 0).getD j 0 = 1 := by
  cases pl with
  | nil => simp at hik
  | cons x rest =>
    obtain ⟨g, r⟩ := x
    have hgaps' : ∀ y ∈ rest, 1 ≤ y.1 := by simpa using htail
    have hτ : (render ((g, r) :: rest)).length = g + r + (render rest).length :=
      length_render_cons g r rest
    have hrge := renderLen_ge rest hgaps'
    have hsplitlist :
        render ((g, r) :: rest) ++
            List.replicate (length - (render ((g, r) :: rest)).length) 0 =
          (List.replicate g 0 ++ (List.replicate r 1 ++
            (render rest ++
              List.replicate ((length - (g + r)) - (render rest).length) 0))) := by
      rw [render_cons]
      have hcount : length -
          (List.replicate g (0 : Int) ++ List.replicate r (1 : Int) ++ render rest).length =
          (length - (g + r)) - (render rest).length := by
        simp only [List.length_append, List.length_replicate]
        omega
      rw [hcount]
      simp [List.append_assoc]
    rw [hsplitlist]
    cases i with
    | zero =>
      have hr' : 1 ≤ r := by simpa using hr1
      have hes' : j ≤ r - 1 := by
        unfold earliestStart at hes
        simpa using hes
      have hls' : length - ((r + (rest.map Prod.snd).sum) + rest.length) ≤ j := by
        unfold latestStart at hls
        simp only [List.map_cons, List.drop_zero, List.sum_cons, List.length_cons,
          List.length_map, Nat.add_sub_cancel, Nat.sub_zero] at hls
        exact hls
      exact getD_block (List.replicate g 0) _ r j
        (by rw [List.length_replicate]; omega)
        (by rw [List.length_replicate]; omega)
    | succ n =>
      have hik' : n < rest.length := by simpa using hik
      have hr1' : 1 ≤ (rest.map Prod.snd).getD n 0 := by simpa using hr1
      have hdropsum : ((rest.map Prod.snd).drop n).sum ≤ (rest.map Prod.snd).sum := by
        have := List.sum_take_add_sum_drop (rest.map Prod.snd) n
        omega
      have hlsT : latestStart length (List.map Prod.snd ((g, r) :: rest)) (n + 1) =
          latestStart (length - (g + r)) (rest.map Prod.snd) n + (g + r) := by
        unfold latestStart
        simp only [List.map_cons, List.drop_succ_cons, List.length_cons, List.length_map]
        have h1 : rest.length + 1 - 1 - (n + 1) = rest.length - 1 - n := by omega
        rw [h1]
        omega
      have hesT : earliestStart (List.map Prod.snd ((g, r) :: rest)) (n + 1) =
          earliestStart (rest.map Prod.snd) n + r + 1 := by
        unfold earliestStart
        simp only [List.map_cons, List.take_succ_cons, List.sum_cons]
        omega
      have hrT : (List.map Prod.snd ((g, r) :: rest)).getD (n + 1) 0 =
          (rest.map Prod.snd).getD n 0 := by simp
      rw [hlsT] at hls
      rw [hesT, hrT] at hes
      have hmain := render_cov_strong rest (length - (g + r)) n (j - (g + r)) hgaps'
        (by omega) hik' hr1' (by omega) (by omega)
      have hjgr : g + r ≤ j := by omega
      rw [List.getD_append_right (List.replicate g 0) _ 0 j
        (by rw [List.length_replicate]; omega)]
      rw [List.getD_append_right (List.replicate r 1) _ 0 _
        (by rw [List.length_replicate, List.length_replicate]; omega)]
      simp only [List.length_replicate]
      have hidx : j - g - r = j - (g + r) := by omega
      rw [hidx]
      exact hmain

/-- Unpacking membership in `overlap_fill_line`: the index lies in one of the
per-run forced ranges, and the slack is strictly smaller than that run. -/
lemma overlap_mem (length : Nat) (runs : List Nat) (j : Nat)
    (hj : j ∈ overlap_fill_line length runs) :
    runs ≠ [] ∧ runs.sum + (runs.length - 1) ≤ length ∧
    ∃ i, i < runs.length ∧ length - (runs.sum + (runs.length - 1)) < runs.getD i 0 ∧
      latestStart length runs i ≤ j ∧
      j ≤ earliestStart runs i + runs.getD i 0 - 1 := by
  unfold overlap_fill_line at hj
  by_cases hne : runs.isEmpty
  · rw [if_pos hne] at hj; simp at hj
  rw [if_neg hne] at hj
  have hfold : runs.foldl (· + ·) 0 = runs.sum := (List.sum_eq_foldl).symm
  by_cases hslack : length < runs.foldl (· + ·) 0 + (runs.length - 1)
  · rw [if_pos hslack] at hj; simp at hj
  rw [if_neg hslack] at hj
  rw [mem_py_sorted_set, List.mem_flatMap] at hj
  obtain ⟨i, hirange, hji⟩ := hj
  rw [List.mem_range] at hirange
  by_cases hrS : runs.getD i 0 ≤ length - (runs.foldl (· + ·) 0 + (runs.length - 1))
  · rw [if_pos hrS] at hji; simp at hji
  rw [if_neg hrS] at hji
  have htake : (runs.scanl (· + ·) 0).getD i 0 = (runs.take i).sum := by
    rw [scanl_add_getD 0 runs i (Nat.le_of_lt hirange)]
    omega
  have htotal : (runs.scanl (· + ·) 0).getD runs.length 0 = runs.sum := by
    rw [scanl_add_getD 0 runs runs.length (Nat.le_refl _)]
    simp
  have hsplit := List.sum_take_add_sum_drop runs i
  simp only [] at hji
  by_cases hss : length - ((runs.scanl (· + ·) 0).getD runs.length 0 -
        (runs.scanl (· + ·) 0).getD i 0 + (runs.length - 1 - i)) ≤
      (runs.scanl (· + ·) 0).getD i 0 + i + runs.getD i 0 - 1
  swap
  · rw [if_neg hss] at hji; simp at hji
  rw [if_pos hss] at hji
  rw [List.mem_range'_1] at hji
  refine ⟨by simpa using hne, by omega, i, hirange, by omega, ?_, ?_⟩
  · unfold latestStart
    omega
  · unfold earliestStart
    omega

/-- Claim C5: whenever at least one legal pattern exists, every index forced
by the overlap deducer is in the possibility-based deducer's `must_fill`. -/
theorem c5_overlap_subset_mustfill (length : Nat) (runs : List Nat) (known : List Int)
    (hne : enumerate_line_patterns length runs known ≠ []) :
    ∀ j ∈ overlap_fill_line length runs,
      j ∈ (deduce_from_possibilities length runs known).1 := by
  intro j hj
  obtain ⟨hrne, hreq, i, hik, hSr, hls, hes⟩ := overlap_mem length runs j hj
  have hdropcons : runs.drop i = runs.get ⟨i, hik⟩ :: runs.drop (i + 1) :=
    List.drop_eq_get_cons hik
  have hgetD : runs.getD i 0 = runs.get ⟨i, hik⟩ := getD_of_lt runs i 0 hik
  have hdropsum_ge : runs.getD i 0 ≤ (runs.drop i).sum := by
    rw [hdropcons, List.sum_cons, hgetD]
    omega
  have hsplit := List.sum_take_add_sum_drop runs i
  have htake_le : (runs.take i).sum + (runs.drop i).sum = runs.sum := hsplit
  have hjlen : j < length := by
    unfold earliestStart at hes
    omega
  rw [deduce_mem_fill length runs known hne j]
  refine ⟨hjlen, ?_⟩
  intro p hp
  obtain ⟨pl, hpad, hτ, hsnds, htail, _⟩ := enumerate_sound length runs known hrne p hp
  rw [hpad]
  unfold padded
  have hpllen : pl.length = runs.length := by
    rw [← hsnds]
    simp
  refine render_cov pl length i j htail hτ (by omega) ?_ ?_ ?_
  · rw [hsnds]
    omega
  · rw [hsnds]
    exact hls
  · rw [hsnds]
    exact hes

/-- Concrete instantiation of C5 at `length = 5`, `runs = [3,1]`, no prior
knowledge: overlap forces index 0 and it indeed lies in `must_fill`. -/
theorem c5_overlap_subset_mustfill_witness :
    enumerate_line_patterns 5 [3,1] (List.replicate 5 (-1)) ≠ [] ∧
    0 ∈ overlap_fill_line 5 [3,1] ∧
    0 ∈ (deduce_from_possibilities 5 [3,1] (List.replicate 5 (-1))).1 :=
  ⟨by decide, by decide,
   c5_overlap_subset_mustfill 5 [3,1] (List.replicate 5 (-1)) (by decide) 0 (by decide)⟩

/-! ## Grid invariants for the propagation passes (claims C8, C9, C10) -/

/-- Well-formed `n × n` grid. -/
def gridWF (n : Nat) (g : Grid) : Prop := g.length = n ∧ ∀ row ∈ g, row.length = n

/-- Every cell holds one of the three states `-1`, `0`, `1`. -/
def gridVals (g : Grid) : Prop := ∀ row ∈ g, ∀ v ∈ row, v = -1 ∨ v = 0 ∨ v = 1

/-- Number of decided (non-`-1`) cells. -/
def decidedCount (g : Grid) : Nat :=
  (g.map (fun row => row.countP (fun v => !(v == -1)))).sum

/-- Cells only get decided, never undecided, and never flip between `0` and
`1`. -/
def Mono01 (g g' : Grid) : Prop :=
  ∀ r c, cellGet g' r c = cellGet g r c ∨
    (cellGet g r c = -1 ∧ (cellGet g' r c = 0 ∨ cellGet g' r c = 1))

lemma mono01_refl (g : Grid) : Mono01 g g := fun _ _ => Or.inl rfl

lemma Mono01.trans {g1 g2 g3 : Grid} (h12 : Mono01 g1 g2) (h23 : Mono01 g2 g3) :
    Mono01 g1 g3 := by
  intro r c
  rcases h23 r c with h | ⟨h2, h3⟩
  · rcases h12 r c with h' | ⟨h1, h2'⟩
    · exact Or.inl (h.trans h')
    · exact Or.inr ⟨h1, h ▸ h2'⟩
  · rcases h12 r c with h' | ⟨h1, h2'⟩
    · exact Or.inr ⟨h' ▸ h2, h3⟩
    · rcases h2' with h0 | h0 <;> rw [h0] at h2 <;> norm_num at h2

lemma cellSet_wf (n : Nat) (g : Grid) (r c : Nat) (v : Int) (h : gridWF n g) :
    gridWF n (cellSet g r c v) := by
  obtain ⟨hlen, hrows⟩ := h
  constructor
  · rw [cellSet, List.length_set]
    exact hlen
  · intro row hrow
    by_cases hr : r < g.length
    · rcases List.mem_or_eq_of_mem_set hrow with h | h
      · exact hrows row h
      · subst h
        rw [List.length_set]
        exact hrows _ (List.mem_iff_get.mpr ⟨⟨r, hr⟩, (getD_of_lt g r [] hr).symm⟩)
    · rw [cellSet, List.set_eq_of_length_le (by omega)] at hrow
      exact hrows row hrow

lemma cellSet_vals (g : Grid) (r c : Nat) (v : Int) (hv : v = 0 ∨ v = 1)
    (h : gridVals g) : gridVals (cellSet g r c v) := by
  intro row hrow w hw
  by_cases hr : r < g.length
  · rcases List.mem_or_eq_of_mem_set hrow with hrowm | hrowm
    · exact h row hrowm w hw
    · subst hrowm
      rcases List.mem_or_eq_of_mem_set hw with hwm | hwm
      · exact h _ (List.mem_iff_get.mpr ⟨⟨r, hr⟩, (getD_of_lt g r [] hr).symm⟩) w hwm
      · subst hwm
        rcases hv with h | h <;> rw [h] <;> norm_num
  · rw [cellSet, List.set_eq_of_length_le (by omega)] at hrow
    exact h row hrow w hw

lemma cellGet_vals (g : Grid) (r c : Nat) (h : gridVals g) :
    cellGet g r c = -1 ∨ cellGet g r c = 0 ∨ cellGet g r c = 1 := by
  unfold cellGet
  by_cases hr : r < g.length
  · have hrow : g.getD r [] ∈ g := List.mem_iff_get.mpr ⟨⟨r, hr⟩, (getD_of_lt g r [] hr).symm⟩
    by_cases hc : c < (g.getD r []).length
    · exact h _ hrow _ (List.mem_iff_get.mpr ⟨⟨c, hc⟩, (getD_of_lt _ c (-1) hc).symm⟩)
    · rw [List.getD_eq_getElem?_getD (g.getD r []), List.getElem?_eq_none (by omega)]
      left; rfl
  · rw [List.getD_eq_getElem?_getD g, List.getElem?_eq_none (l := g) (by omega)]
    left; rfl

lemma cellGet_cellSet_self (g : Grid) (r c : Nat) (v : Int)
    (hr : r < g.length) (hc : c < (g.getD r []).length) :
    cellGet (cellSet g r c v) r c = v := by
  unfold cellGet cellSet
  rw [getD_set_self g r _ [] hr]
  exact getD_set_self _ c v (-1) hc

lemma cellGet_cellSet_ne (g : Grid) (r c r' c' : Nat) (v : Int)
    (h : ¬(r' = r ∧ c' = c)) :
    cellGet (cellSet g r c v) r' c' = cellGet g r' c' := by
  unfold cellGet cellSet
  by_cases hrr : r' = r
  · subst hrr
    have hcc : c' ≠ c := fun hcx => h ⟨rfl, hcx⟩
    by_cases hr : r' < g.length
    · rw [getD_set_self g r' _ [] hr]
      exact getD_set_ne _ c c' v (-1) (fun hcx => hcc hcx.symm)
    · rw [List.set_eq_of_length_le (by omega)]
  · rw [getD_set_ne g r r' _ [] (fun hcx => hrr hcx.symm)]

lemma countP_set_decided (row : List Int) (c : Nat) (v : Int)
    (hc : c < row.length) (hold : row.getD c (-1) = -1) (hv : ¬ v = -1) :
    (row.set c v).countP (fun w => !(w == -1)) =
      row.countP (fun w => !(w == -1)) + 1 := by
  induction row generalizing c with
  | nil => simp at hc
  | cons x xs ih =>
    cases c with
    | zero =>
      have hx : x = -1 := by simpa using hold
      subst hx
      simp only [List.set_cons_zero, List.countP_cons]
      have h1 : (!((-1 : Int) == -1)) = false := by decide
      have h2 : (!(v == -1)) = true := by simpa using hv
      rw [h1, h2]
      simp
    | succ d =>
      have hd : xs.getD d (-1) = -1 := by simpa using hold
      simp only [List.set_cons_succ, List.countP_cons]
      rw [ih d (by simpa using hc) hd]
      omega

lemma sum_map_set {α : Type} (f : α → Nat) :
    ∀ (l : List α) (r : Nat) (x : α) (h : r < l.length),
    ((l.set r x).map f).sum + f (l.get ⟨r, h⟩) = (l.map f).sum + f x := by
  intro l
  induction l with
  | nil => intro r x h; simp at h
  | cons a as ih =>
    intro r x h
    cases r with
    | zero =>
      have hget : (a :: as).get ⟨0, h⟩ = a := rfl
      simp only [List.set_cons_zero, List.map_cons, List.sum_cons, hget]
      omega
    | succ d =>
      have hd : d < as.length := by simpa using h
      have hget : (a :: as).get ⟨d + 1, h⟩ = as.get ⟨d, hd⟩ := rfl
      simp only [List.set_cons_succ, List.map_cons, List.sum_cons, hget]
      have := ih d x hd
      omega

lemma decidedCount_cellSet (n : Nat) (g : Grid) (r c : Nat) (v : Int)
    (hwf : gridWF n g) (hr : r < n) (hc : c < n)
    (hold : cellGet g r c = -1) (hv : ¬ v = -1) :
    decidedCount (cellSet g r c v) = decidedCount g + 1 := by
  obtain ⟨hlen, hrows⟩ := hwf
  have hrg : r < g.length := by omega
  have hrowmem : g.getD r [] ∈ g :=
    List.mem_iff_get.mpr ⟨⟨r, hrg⟩, (getD_of_lt g r [] hrg).symm⟩
  have hrowlen : (g.getD r []).length = n := hrows _ hrowmem
  unfold decidedCount cellSet
  have hsum := sum_map_set (fun row => row.countP (fun w => !(w == -1))) g r
    ((g.getD r []).set c v) hrg
  have hrowcnt := countP_set_decided (g.getD r []) c v (by omega) hold hv
  rw [← getD_of_lt g r [] hrg] at hsum
  omega

lemma sum_countP_le (n : Nat) :
    ∀ (g : Grid), (∀ row ∈ g, row.length = n) →
    (g.map (fun row => row.countP (fun w => !(w == -1)))).sum ≤ g.length * n := by
  intro g
  induction g with
  | nil => intro _; simp
  | cons row rest ih =>
    intro hrows
    simp only [List.map_cons, List.sum_cons, List.length_cons]
    have h1 : row.countP (fun w => !(w == -1)) ≤ n := by
      have hle := List.countP_le_length (p := fun w => !(w == -1)) (l := row)
      have hrl := hrows row (List.mem_cons_self _ _)
      omega
    have h2 := ih (fun r hr => hrows r (List.mem_cons_of_mem _ hr))
    have h3 : (rest.length + 1) * n = rest.length * n + n := by ring
    omega

lemma decidedCount_le (n : Nat) (g : Grid) (hwf : gridWF n g) :
    decidedCount g ≤ n * n := by
  obtain ⟨hlen, hrows⟩ := hwf
  have := sum_countP_le n g hrows
  unfold decidedCount
  rw [hlen] at this
  exact this

/-- One write attempt of the possibility pass, on an explicit (row, col) pair:
write `v` unless the cell already holds `v`. -/
def markStep (v : Int) (gc : Grid × Bool) (rc : Nat × Nat) : Grid × Bool :=
  if !(cellGet gc.1 rc.1 rc.2 == v) then (cellSet gc.1 rc.1 rc.2 v, true) else gc

/-- One write attempt of the overlap pass: fill the cell only if still
unknown. -/
def overlapStep (gc : Grid × Bool) (rc : Nat × Nat) : Grid × Bool :=
  if cellGet gc.1 rc.1 rc.2 == -1 then (cellSet gc.1 rc.1 rc.2 1, true) else gc

/-- What one deduction step (or a whole pass) guarantees: well-formedness and
tri-state values are preserved, cells only move from Unknown to a decided
value, the decided count never drops, and the changed flag is set exactly when
the decided count grew. -/
def LineOutcome (n : Nat) (g : Grid) (ch : Bool) (out : Grid × Bool) : Prop :=
  gridWF n out.1 ∧ gridVals out.1 ∧ Mono01 g out.1 ∧
  decidedCount g ≤ decidedCount out.1 ∧
  out.2 = (ch || decide (decidedCount g < decidedCount out.1))

lemma flag_compose (ch : Bool) (c0 c1 c2 : Nat) (h01 : c0 ≤ c1) (h12 : c1 ≤ c2) :
    ((ch || decide (c0 < c1)) || decide (c1 < c2)) = (ch || decide (c0 < c2)) := by
  rw [Bool.eq_iff_iff]
  simp only [Bool.or_eq_true, decide_eq_true_eq]
  constructor
  · rintro ((h | h) | h)
    · exact Or.inl h
    · right; omega
    · right; omega
  · rintro (h | h)
    · exact Or.inl (Or.inl h)
    · omega

lemma LineOutcome.comp {n : Nat} {g : Grid} {ch : Bool} {mid out : Grid × Bool}
    (h1 : LineOutcome n g ch mid) (h2 : LineOutcome n mid.1 mid.2 out) :
    LineOutcome n g ch out := by
  obtain ⟨hwf1, hv1, hm1, hc1, hf1⟩ := h1
  obtain ⟨hwf2, hv2, hm2, hc2, hf2⟩ := h2
  refine ⟨hwf2, hv2, hm1.trans hm2, Nat.le_trans hc1 hc2, ?_⟩
  rw [hf2, hf1]
  exact flag_compose ch _ _ _ hc1 hc2

lemma lineOutcome_refl (n : Nat) (g : Grid) (ch : Bool)
    (hwf : gridWF n g) (hvals : gridVals g) : LineOutcome n g ch (g, ch) :=
  ⟨hwf, hvals, mono01_refl g, Nat.le_refl _, by simp⟩

/-- Behaviour of a `markStep` fold over a duplicate-free list of in-range
cells none of which currently holds the opposite decided value. -/
lemma markFold_outcome (n : Nat) (v : Int) (hv : v = 0 ∨ v = 1) :
    ∀ (cells : List (Nat × Nat)) (g : Grid) (ch : Bool),
    gridWF n g → gridVals g →
    cells.Nodup →
    (∀ rc ∈ cells, rc.1 < n ∧ rc.2 < n) →
    (∀ rc ∈ cells, ¬ (cellGet g rc.1 rc.2 = 1 - v)) →
    LineOutcome n g ch (cells.foldl (markStep v) (g, ch)) ∧
    (∀ r c, (r, c) ∉ cells →
      cellGet (cells.foldl (markStep v) (g, ch)).1 r c = cellGet g r c) := by
  intro cells
  induction cells with
  | nil =>
    intro g ch hwf hvals _ _ _
    exact ⟨lineOutcome_refl n g ch hwf hvals, fun _ _ _ => rfl⟩
  | cons rc rest ih =>
    intro g ch hwf hvals hnodup hrange hnoopp
    obtain ⟨hrcnotin, hnodup'⟩ := List.nodup_cons.mp hnodup
    have hrcr := (hrange rc (List.mem_cons_self _ _)).1
    have hrcc := (hrange rc (List.mem_cons_self _ _)).2
    rw [List.foldl_cons]
    by_cases hguard : (!(cellGet g rc.1 rc.2 == v)) = true
    · have hstep : markStep v (g, ch) rc = (cellSet g rc.1 rc.2 v, true) := by
        unfold markStep
        rw [if_pos hguard]
      rw [hstep]
      have hnev : ¬ (cellGet g rc.1 rc.2 = v) := by
        intro hcontra
        rw [hcontra] at hguard
        simp at hguard
      have hold : cellGet g rc.1 rc.2 = -1 := by
        rcases cellGet_vals g rc.1 rc.2 hvals with h | h | h
        · exact h
        · rcases hv with hv0 | hv1
          · exact absurd (hv0 ▸ h) hnev
          · exact absurd (h.trans (by rw [hv1]; norm_num)) (hnoopp rc (List.mem_cons_self _ _))
        · rcases hv with hv0 | hv1
          · exact absurd (h.trans (by rw [hv0]; norm_num)) (hnoopp rc (List.mem_cons_self _ _))
          · exact absurd (hv1 ▸ h) hnev
      have hvne : ¬ v = -1 := by rcases hv with h | h <;> rw [h] <;> norm_num
      have hwf' := cellSet_wf n g rc.1 rc.2 v hwf
      have hvals' := cellSet_vals g rc.1 rc.2 v hv hvals
      have hcount' := decidedCount_cellSet n g rc.1 rc.2 v hwf hrcr hrcc hold hvne
      have hrowlen : rc.2 < (g.getD rc.1 []).length := by
        obtain ⟨hlen, hrows⟩ := hwf
        have hrg : rc.1 < g.length := by omega
        have := hrows _ (List.mem_iff_get.mpr ⟨⟨rc.1, hrg⟩, (getD_of_lt g rc.1 [] hrg).symm⟩)
        omega
      have hrg : rc.1 < g.length := by
        obtain ⟨hlen, _⟩ := hwf
        omega
      have hnoopp' : ∀ rc' ∈ rest, ¬ (cellGet (cellSet g rc.1 rc.2 v) rc'.1 rc'.2 = 1 - v) := by
        intro rc' hrc'
        have hne : ¬ (rc'.1 = rc.1 ∧ rc'.2 = rc.2) := by
          intro ⟨h1, h2⟩
          apply hrcnotin
          have : rc' = rc := Prod.ext h1 h2
          exact this ▸ hrc'
        rw [cellGet_cellSet_ne g rc.1 rc.2 rc'.1 rc'.2 v hne]
        exact hnoopp rc' (List.mem_cons_of_mem _ hrc')
      obtain ⟨hout, huntouched⟩ := ih (cellSet g rc.1 rc.2 v) true hwf' hvals' hnodup'
        (fun rc' h => hrange rc' (List.mem_cons_of_mem _ h)) hnoopp'
      constructor
      · have hsingle : LineOutcome n g ch (cellSet g rc.1 rc.2 v, true) := by
          refine ⟨hwf', hvals', ?_, ?_, ?_⟩
          · show Mono01 g (cellSet g rc.1 rc.2 v)
            intro r0 c0
            by_cases hne : r0 = rc.1 ∧ c0 = rc.2
            · obtain ⟨h1, h2⟩ := hne
              subst h1
              subst h2
              right
              rw [cellGet_cellSet_self g rc.1 rc.2 v hrg hrowlen]
              exact ⟨hold, hv⟩
            · left
              exact cellGet_cellSet_ne g rc.1 rc.2 r0 c0 v hne
          · show decidedCount g ≤ decidedCount (cellSet g rc.1 rc.2 v)
            omega
          · show true = (ch || decide (decidedCount g < decidedCount (cellSet g rc.1 rc.2 v)))
            rw [hcount']
            simp
        exact hsingle.comp hout
      · intro r c hnot
        have hne : ¬ (r = rc.1 ∧ c = rc.2) := by
          intro ⟨h1, h2⟩
          exact hnot (by rw [h1, h2]; exact List.mem_cons_self _ _)
        rw [huntouched r c (fun h => hnot (List.mem_cons_of_mem _ h))]
        exact cellGet_cellSet_ne g rc.1 rc.2 r c v hne
    · have hstep : markStep v (g, ch) rc = (g, ch) := by
        unfold markStep
        rw [if_neg hguard]
      rw [hstep]
      obtain ⟨hout, huntouched⟩ := ih g ch hwf hvals hnodup'
        (fun rc' h => hrange rc' (List.mem_cons_of_mem _ h))
        (fun rc' h => hnoopp rc' (List.mem_cons_of_mem _ h))
      exact ⟨hout, fun r c hnot => huntouched r c (fun h => hnot (List.mem_cons_of_mem _ h))⟩

/-- Behaviour of an `overlapStep` fold over in-range cells: only unknown
cells are written, always with `1`. -/
lemma overlapFold_outcome (n : Nat) :
    ∀ (cells : List (Nat × Nat)) (g : Grid) (ch : Bool),
    gridWF n g → gridVals g →
    (∀ rc ∈ cells, rc.1 < n ∧ rc.2 < n) →
    LineOutcome n g ch (cells.foldl overlapStep (g, ch)) := by
  intro cells
  induction cells with
  | nil =>
    intro g ch hwf hvals _
    exact lineOutcome_refl n g ch hwf hvals
  | cons rc rest ih =>
    intro g ch hwf hvals hrange
    have hrcr := (hrange rc (List.mem_cons_self _ _)).1
    have hrcc := (hrange rc (List.mem_cons_self _ _)).2
    rw [List.foldl_cons]
    by_cases hguard : (cellGet g rc.1 rc.2 == -1) = true
    · have hstep : overlapStep (g, ch) rc = (cellSet g rc.1 rc.2 1, true) := by
        unfold overlapStep
        rw [if_pos hguard]
      rw [hstep]
      have hold : cellGet g rc.1 rc.2 = -1 := by simpa using hguard
      have hwf' := cellSet_wf n g rc.1 rc.2 1 hwf
      have hvals' := cellSet_vals g rc.1 rc.2 1 (Or.inr rfl) hvals
      have hcount' := decidedCount_cellSet n g rc.1 rc.2 1 hwf hrcr hrcc hold (by norm_num)
      have hrg : rc.1 < g.length := by
        obtain ⟨hlen, _⟩ := hwf
        omega
      have hrowlen : rc.2 < (g.getD rc.1 []).length := by
        obtain ⟨hlen, hrows⟩ := hwf
        have := hrows _ (List.mem_iff_get.mpr ⟨⟨rc.1, hrg⟩, (getD_of_lt g rc.1 [] hrg).symm⟩)
        omega
      have hout := ih (cellSet g rc.1 rc.2 1) true hwf' hvals'
        (fun rc' h => hrange rc' (List.mem_cons_of_mem _ h))
      have hsingle : LineOutcome n g ch (cellSet g rc.1 rc.2 1, true) := by
        refine ⟨hwf', hvals', ?_, ?_, ?_⟩
        · show Mono01 g (cellSet g rc.1 rc.2 1)
          intro r0 c0
          by_cases hne : r0 = rc.1 ∧ c0 = rc.2
          · obtain ⟨h1, h2⟩ := hne
            subst h1
            subst h2
            right
            rw [cellGet_cellSet_self g rc.1 rc.2 1 hrg hrowlen]
            exact ⟨hold, Or.inr rfl⟩
          · left
            exact cellGet_cellSet_ne g rc.1 rc.2 r0 c0 1 hne
        · show decidedCount g ≤ decidedCount (cellSet g rc.1 rc.2 1)
          omega
        · show true = (ch || decide (decidedCount g < decidedCount (cellSet g rc.1 rc.2 1)))
          rw [hcount']
          simp
      exact hsingle.comp hout
    · have hstep : overlapStep (g, ch) rc = (g, ch) := by
        unfold overlapStep
        rw [if_neg hguard]
      rw [hstep]
      exact ih g ch hwf hvals (fun rc' h => hrange rc' (List.mem_cons_of_mem _ h))

/-- Folding any per-line step that individually satisfies `LineOutcome`
yields a `LineOutcome` for the whole pass. -/
lemma foldl_lineOutcome (n : Nat) {α : Type} :
    ∀ (l : List α) (f : Grid × Bool → α → Grid × Bool),
    (∀ (g : Grid) (ch : Bool) (a : α), a ∈ l → gridWF n g → gridVals g →
      LineOutcome n g ch (f (g, ch) a)) →
    ∀ (g : Grid) (ch : Bool), gridWF n g → gridVals g →
    LineOutcome n g ch (l.foldl f (g, ch)) := by
  intro l
  induction l with
  | nil =>
    intro f _ g ch hwf hvals
    exact lineOutcome_refl n g ch hwf hvals
  | cons a rest ih =>
    intro f hf g ch hwf hvals
    rw [List.foldl_cons]
    have hmid : LineOutcome n g ch (f (g, ch) a) :=
      hf g ch a (List.mem_cons_self _ _) hwf hvals
    have hwf1 : gridWF n (f (g, ch) a).1 := hmid.1
    have hvals1 : gridVals (f (g, ch) a).1 := hmid.2.1
    have hrest := ih f (fun g0 ch0 a0 ha0 => hf g0 ch0 a0 (List.mem_cons_of_mem _ ha0))
      (f (g, ch) a).1 (f (g, ch) a).2 hwf1 hvals1
    rw [show ((f (g, ch) a).1, (f (g, ch) a).2) = f (g, ch) a from rfl] at hrest
    exact hmid.comp hrest

lemma enumerate_consistent (L : Nat) (R : List Nat) (K : List Int) :
    ∀ p ∈ enumerate_line_patterns L R K, consistent_fill L K p = true := by
  intro p hp
  by_cases hruns : R = []
  · subst hruns
    unfold enumerate_line_patterns at hp
    rw [if_pos (by rfl)] at hp
    by_cases hall : K.all (fun k => k == 0 || k == -1) = true
    swap
    · rw [if_neg (by simpa using hall)] at hp; simp at hp
    rw [if_pos hall] at hp
    have hpeq : p = List.replicate L 0 := by simpa using hp
    subst hpeq
    unfold consistent_fill
    rw [List.all_eq_true]
    intro i hi
    rw [List.all_eq_true] at hall
    by_cases hik : i < K.length
    · have hk := hall (K.get ⟨i, hik⟩) (List.mem_iff_get.mpr ⟨⟨i, hik⟩, rfl⟩)
      rw [getD_of_lt K i (-1) hik, getD_replicate_zero]
      rcases (Bool.or_eq_true _ _).mp hk with h | h
      · exact (Bool.or_eq_true _ _).mpr (Or.inr h)
      · exact (Bool.or_eq_true _ _).mpr (Or.inl h)
    · rw [List.getD_eq_getElem?_getD K, List.getElem?_eq_none (by omega)]
      simp
  · obtain ⟨_, _, _, _, _, hcons⟩ := enumerate_sound L R K hruns p hp
    exact hcons

lemma deduce_empty_eq (L : Nat) (R : List Nat) (K : List Int)
    (hne : enumerate_line_patterns L R K = []) :
    deduce_from_possibilities L R K = ([], []) := by
  unfold deduce_from_possibilities
  rw [hne]
  rfl

lemma deduce_cells_facts (L : Nat) (R : List Nat) (K : List Int) :
    ((deduce_from_possibilities L R K).1.Nodup ∧
      (∀ j ∈ (deduce_from_possibilities L R K).1, j < L)) ∧
    ((deduce_from_possibilities L R K).2.Nodup ∧
      (∀ j ∈ (deduce_from_possibilities L R K).2, j < L)) := by
  unfold deduce_from_possibilities
  by_cases hne : (enumerate_line_patterns L R K).isEmpty
  · rw [if_pos hne]
    refine ⟨⟨List.nodup_nil, ?_⟩, ⟨List.nodup_nil, ?_⟩⟩ <;> intro j hj <;> simp at hj
  · rw [if_neg hne]
    refine ⟨⟨List.Nodup.filter _ (List.nodup_range L), ?_⟩,
      ⟨List.Nodup.filter _ (List.nodup_range L), ?_⟩⟩ <;> intro j hj <;>
      have := (List.mem_filter.mp hj).1 <;> exact List.mem_range.mp this

lemma deduce_fill_not_zero (L : Nat) (R : List Nat) (K : List Int) :
    ∀ c ∈ (deduce_from_possibilities L R K).1, ¬ (K.getD c (-1) = 0) := by
  intro c hc
  by_cases hne : enumerate_line_patterns L R K = []
  · rw [deduce_empty_eq L R K hne] at hc
    simp at hc
  · obtain ⟨hcl, hall⟩ := (deduce_mem_fill L R K hne c).mp hc
    obtain ⟨p, hp⟩ := List.exists_mem_of_ne_nil _ hne
    have hcons := enumerate_consistent L R K p hp
    unfold consistent_fill at hcons
    rw [List.all_eq_true] at hcons
    have hcc := hcons c (List.mem_range.mpr hcl)
    intro h0
    rcases (Bool.or_eq_true _ _).mp hcc with h | h
    · rw [h0] at h
      norm_num at h
    · rw [h0, hall p hp] at h
      norm_num at h

lemma deduce_empty_not_one (L : Nat) (R : List Nat) (K : List Int) :
    ∀ c ∈ (deduce_from_possibilities L R K).2, ¬ (K.getD c (-1) = 1) := by
  intro c hc
  by_cases hne : enumerate_line_patterns L R K = []
  · rw [deduce_empty_eq L R K hne] at hc
    simp at hc
  · obtain ⟨hcl, hall⟩ := (deduce_mem_empty L R K hne c).mp hc
    obtain ⟨p, hp⟩ := List.exists_mem_of_ne_nil _ hne
    have hcons := enumerate_consistent L R K p hp
    unfold consistent_fill at hcons
    rw [List.all_eq_true] at hcons
    have hcc := hcons c (List.mem_range.mpr hcl)
    intro h0
    rcases (Bool.or_eq_true _ _).mp hcc with h | h
    · rw [h0] at h
      norm_num at h
    · rw [h0, hall p hp] at h
      norm_num at h

lemma deduce_disjoint (L : Nat) (R : List Nat) (K : List Int) :
    ∀ c ∈ (deduce_from_possibilities L R K).2, c ∉ (deduce_from_possibilities L R K).1 := by
  intro c hc2 hc1
  by_cases hne : enumerate_line_patterns L R K = []
  · rw [deduce_empty_eq L R K hne] at hc2
    simp at hc2
  · obtain ⟨_, hall1⟩ := (deduce_mem_fill L R K hne c).mp hc1
    obtain ⟨_, hall0⟩ := (deduce_mem_empty L R K hne c).mp hc2
    obtain ⟨p, hp⟩ := List.exists_mem_of_ne_nil _ hne
    have h1 := hall1 p hp
    have h0 := hall0 p hp
    rw [h1] at h0
    norm_num at h0

lemma getD_map_range (n i : Nat) (f : Nat → Int) (hi : i < n) :
    ((List.range n).map f).getD i (-1) = f i := by
  have hlen : i < ((List.range n).map f).length := by simpa using hi
  rw [getD_of_lt _ i (-1) hlen]
  have : ((List.range n).map f).get ⟨i, hlen⟩ = ((List.range n).map f)[i] := rfl
  rw [this, List.getElem_map, List.getElem_range]

lemma overlap_lt (length : Nat) (runs : List Nat) :
    ∀ j ∈ overlap_fill_line length runs, j < length := by
  intro j hj
  obtain ⟨hrne, hreq, i, hik, hSr, hls, hes⟩ := overlap_mem length runs j hj
  have hdropcons : runs.drop i = runs.get ⟨i, hik⟩ :: runs.drop (i + 1) :=
    List.drop_eq_get_cons hik
  have hgetD : runs.getD i 0 = runs.get ⟨i, hik⟩ := getD_of_lt runs i 0 hik
  have hdropsum_ge : runs.getD i 0 ≤ (runs.drop i).sum := by
    rw [hdropcons, List.sum_cons, hgetD]
    omega
  have hsplit := List.sum_take_add_sum_drop runs i
  unfold earliestStart at hes
  omega

lemma apply_overlap_pass_outcome (p : NonogramPuzzle) (g : Grid)
    (hwf : gridWF p.size g) (hvals : gridVals g) :
    LineOutcome p.size g false (apply_overlap_pass p g) := by
  have hfrow : ∀ (g0 : Grid) (ch0 : Bool) (r : Nat), r ∈ List.range p.size →
      gridWF p.size g0 → gridVals g0 →
      LineOutcome p.size g0 ch0
        ((overlap_fill_line p.size (p.rows.getD r [])).foldl
          (fun gc c => if cellGet gc.1 r c == -1 then (cellSet gc.1 r c 1, true) else gc)
          (g0, ch0)) := by
    intro g0 ch0 r hr hwf0 hvals0
    have hconv : (overlap_fill_line p.size (p.rows.getD r [])).foldl
        (fun gc c => if cellGet gc.1 r c == -1 then (cellSet gc.1 r c 1, true) else gc)
        (g0, ch0) =
        ((overlap_fill_line p.size (p.rows.getD r [])).map (fun c => (r, c))).foldl
          overlapStep (g0, ch0) := by
      rw [List.foldl_map]
      rfl
    rw [hconv]
    apply overlapFold_outcome p.size _ g0 ch0 hwf0 hvals0
    intro rc hrc
    rw [List.mem_map] at hrc
    obtain ⟨c, hcmem, hceq⟩ := hrc
    rw [← hceq]
    exact ⟨List.mem_range.mp hr, overlap_lt p.size _ c hcmem⟩
  have hfcol : ∀ (g0 : Grid) (ch0 : Bool) (c : Nat), c ∈ List.range p.size →
      gridWF p.size g0 → gridVals g0 →
      LineOutcome p.size g0 ch0
        ((overlap_fill_line p.size (p.cols.getD c [])).foldl
          (fun gc i => if cellGet gc.1 i c == -1 then (cellSet gc.1 i c 1, true) else gc)
          (g0, ch0)) := by
    intro g0 ch0 c hc hwf0 hvals0
    have hconv : (overlap_fill_line p.size (p.cols.getD c [])).foldl
        (fun gc i => if cellGet gc.1 i c == -1 then (cellSet gc.1 i c 1, true) else gc)
        (g0, ch0) =
        ((overlap_fill_line p.size (p.cols.getD c [])).map (fun i => (i, c))).foldl
          overlapStep (g0, ch0) := by
      rw [List.foldl_map]
      rfl
    rw [hconv]
    apply overlapFold_outcome p.size _ g0 ch0 hwf0 hvals0
    intro rc hrc
    rw [List.mem_map] at hrc
    obtain ⟨i, himem, hieq⟩ := hrc
    rw [← hieq]
    exact ⟨overlap_lt p.size _ i himem, List.mem_range.mp hc⟩
  have h1 := foldl_lineOutcome p.size (List.range p.size)
    (fun gc r => (overlap_fill_line p.size (p.rows.getD r [])).foldl
      (fun gc c => if cellGet gc.1 r c == -1 then (cellSet gc.1 r c 1, true) else gc) gc)
    hfrow g false hwf hvals
  have h2 := foldl_lineOutcome p.size (List.range p.size)
    (fun gc c => (overlap_fill_line p.size (p.cols.getD c [])).foldl
      (fun gc i => if cellGet gc.1 i c == -1 then (cellSet gc.1 i c 1, true) else gc) gc)
    hfcol
    ((List.range p.size).foldl
      (fun gc r => (overlap_fill_line p.size (p.rows.getD r [])).foldl
        (fun gc c => if cellGet gc.1 r c == -1 then (cellSet gc.1 r c 1, true) else gc) gc)
      (g, false)).1
    ((List.range p.size).foldl
      (fun gc r => (overlap_fill_line p.size (p.rows.getD r [])).foldl
        (fun gc c => if cellGet gc.1 r c == -1 then (cellSet gc.1 r c 1, true) else gc) gc)
      (g, false)).2
    h1.1 h1.2.1
  exact h1.comp h2

lemma pairs_nodup_row (r : Nat) (l : List Nat) (h : l.Nodup) :
    (l.map (fun c => (r, c))).Nodup :=
  h.map (fun a b hab => by simpa using hab)

lemma pairs_nodup_col (c : Nat) (l : List Nat) (h : l.Nodup) :
    (l.map (fun i => (i, c))).Nodup :=
  h.map (fun a b hab => by simpa using hab)

lemma possRow_outcome (p : NonogramPuzzle) (g0 : Grid) (ch0 : Bool) (r : Nat)
    (hr : r ∈ List.range p.size) (hwf0 : gridWF p.size g0) (hvals0 : gridVals g0) :
    LineOutcome p.size g0 ch0
      ((deduce_from_possibilities p.size (p.rows.getD r []) (g0.getD r [])).2.foldl
        (fun gc c => if !(cellGet gc.1 r c == 0) then (cellSet gc.1 r c 0, true) else gc)
        ((deduce_from_possibilities p.size (p.rows.getD r []) (g0.getD r [])).1.foldl
          (fun gc c => if !(cellGet gc.1 r c == 1) then (cellSet gc.1 r c 1, true) else gc)
          (g0, ch0))) := by
  have hrn := List.mem_range.mp hr
  have hfacts := deduce_cells_facts p.size (p.rows.getD r []) (g0.getD r [])
  have hmfconv : (deduce_from_possibilities p.size (p.rows.getD r []) (g0.getD r [])).1.foldl
      (fun gc c => if !(cellGet gc.1 r c == 1) then (cellSet gc.1 r c 1, true) else gc)
      (g0, ch0) =
      ((deduce_from_possibilities p.size (p.rows.getD r []) (g0.getD r [])).1.map
        (fun c => (r, c))).foldl (markStep 1) (g0, ch0) := by
    rw [List.foldl_map]
    rfl
  have hnoopp1 : ∀ rc ∈ (deduce_from_possibilities p.size (p.rows.getD r [])
      (g0.getD r [])).1.map (fun c => (r, c)), ¬ (cellGet g0 rc.1 rc.2 = 1 - 1) := by
    intro rc hrc
    rw [List.mem_map] at hrc
    obtain ⟨c, hcmem, hceq⟩ := hrc
    rw [← hceq]
    show ¬ (cellGet g0 r c = 1 - 1)
    have heq : cellGet g0 r c = (g0.getD r []).getD c (-1) := rfl
    rw [heq]
    have h0 := deduce_fill_not_zero p.size (p.rows.getD r []) (g0.getD r []) c hcmem
    intro hcontra
    exact h0 (by omega)
  obtain ⟨hout1, huntouched1⟩ := markFold_outcome p.size 1 (Or.inr rfl)
    ((deduce_from_possibilities p.size (p.rows.getD r []) (g0.getD r [])).1.map
      (fun c => (r, c))) g0 ch0 hwf0 hvals0
    (pairs_nodup_row r _ hfacts.1.1)
    (by
      intro rc hrc
      rw [List.mem_map] at hrc
      obtain ⟨c, hcmem, hceq⟩ := hrc
      rw [← hceq]
      exact ⟨hrn, hfacts.1.2 c hcmem⟩)
    hnoopp1
  rw [hmfconv]
  set mid := ((deduce_from_possibilities p.size (p.rows.getD r []) (g0.getD r [])).1.map
    (fun c => (r, c))).foldl (markStep 1) (g0, ch0) with hmid
  have hmeconv : (deduce_from_possibilities p.size (p.rows.getD r []) (g0.getD r [])).2.foldl
      (fun gc c => if !(cellGet gc.1 r c == 0) then (cellSet gc.1 r c 0, true) else gc) mid =
      ((deduce_from_possibilities p.size (p.rows.getD r []) (g0.getD r [])).2.map
        (fun c => (r, c))).foldl (markStep 0) mid := by
    rw [List.foldl_map]
    rfl
  rw [hmeconv]
  have hnoopp2 : ∀ rc ∈ (deduce_from_possibilities p.size (p.rows.getD r [])
      (g0.getD r [])).2.map (fun c => (r, c)), ¬ (cellGet mid.1 rc.1 rc.2 = 1 - 0) := by
    intro rc hrc
    rw [List.mem_map] at hrc
    obtain ⟨c, hcmem, hceq⟩ := hrc
    rw [← hceq]
    show ¬ (cellGet mid.1 r c = 1 - 0)
    have hnotin : (r, c) ∉ (deduce_from_possibilities p.size (p.rows.getD r [])
        (g0.getD r [])).1.map (fun c => (r, c)) := by
      intro hcontra
      rw [List.mem_map] at hcontra
      obtain ⟨c2, hc2mem, hc2eq⟩ := hcontra
      have hc2c : c2 = c := by simpa using hc2eq
      rw [hc2c] at hc2mem
      exact deduce_disjoint p.size (p.rows.getD r []) (g0.getD r []) c hcmem hc2mem
    rw [huntouched1 r c hnotin]
    have heq : cellGet g0 r c = (g0.getD r []).getD c (-1) := rfl
    rw [heq]
    have h1 := deduce_empty_not_one p.size (p.rows.getD r []) (g0.getD r []) c hcmem
    intro hcontra
    exact h1 (by omega)
  obtain ⟨hout2, _⟩ := markFold_outcome p.size 0 (Or.inl rfl)
    ((deduce_from_possibilities p.size (p.rows.getD r []) (g0.getD r [])).2.map
      (fun c => (r, c))) mid.1 mid.2 hout1.1 hout1.2.1
    (pairs_nodup_row r _ hfacts.2.1)
    (by
      intro rc hrc
      rw [List.mem_map] at hrc
      obtain ⟨c, hcmem, hceq⟩ := hrc
      rw [← hceq]
      exact ⟨hrn, hfacts.2.2 c hcmem⟩)
    hnoopp2
  exact hout1.comp hout2

lemma possCol_outcome (p : NonogramPuzzle) (g0 : Grid) (ch0 : Bool) (c : Nat)
    (hc : c ∈ List.range p.size) (hwf0 : gridWF p.size g0) (hvals0 : gridVals g0) :
    LineOutcome p.size g0 ch0
      ((deduce_from_possibilities p.size (p.cols.getD c [])
          ((List.range p.size).map (fun i => cellGet g0 i c))).2.foldl
        (fun gc i => if !(cellGet gc.1 i c == 0) then (cellSet gc.1 i c 0, true) else gc)
        ((deduce_from_possibilities p.size (p.cols.getD c [])
            ((List.range p.size).map (fun i => cellGet g0 i c))).1.foldl
          (fun gc i => if !(cellGet gc.1 i c == 1) then (cellSet gc.1 i c 1, true) else gc)
          (g0, ch0))) := by
  have hcn := List.mem_range.mp hc
  have hfacts := deduce_cells_facts p.size (p.cols.getD c [])
    ((List.range p.size).map (fun i => cellGet g0 i c))
  have hmfconv : (deduce_from_possibilities p.size (p.cols.getD c [])
      ((List.range p.size).map (fun i => cellGet g0 i c))).1.foldl
      (fun gc i => if !(cellGet gc.1 i c == 1) then (cellSet gc.1 i c 1, true) else gc)
      (g0, ch0) =
      ((deduce_from_possibilities p.size (p.cols.getD c [])
        ((List.range p.size).map (fun i => cellGet g0 i c))).1.map
        (fun i => (i, c))).foldl (markStep 1) (g0, ch0) := by
    rw [List.foldl_map]
    rfl
  have hnoopp1 : ∀ rc ∈ (deduce_from_possibilities p.size (p.cols.getD c [])
      ((List.range p.size).map (fun i => cellGet g0 i c))).1.map (fun i => (i, c)),
      ¬ (cellGet g0 rc.1 rc.2 = 1 - 1) := by
    intro rc hrc
    rw [List.mem_map] at hrc
    obtain ⟨i, himem, hieq⟩ := hrc
    rw [← hieq]
    show ¬ (cellGet g0 i c = 1 - 1)
    have hin : i < p.size := hfacts.1.2 i himem
    have heq : ((List.range p.size).map (fun i => cellGet g0 i c)).getD i (-1) =
        cellGet g0 i c := getD_map_range p.size i _ hin
    rw [← heq]
    have h0 := deduce_fill_not_zero p.size (p.cols.getD c [])
      ((List.range p.size).map (fun i => cellGet g0 i c)) i himem
    intro hcontra
    exact h0 (by omega)
  obtain ⟨hout1, huntouched1⟩ := markFold_outcome p.size 1 (Or.inr rfl)
    ((deduce_from_possibilities p.size (p.cols.getD c [])
      ((List.range p.size).map (fun i => cellGet g0 i c))).1.map
      (fun i => (i, c))) g0 ch0 hwf0 hvals0
    (pairs_nodup_col c _ hfacts.1.1)
    (by
      intro rc hrc
      rw [List.mem_map] at hrc
      obtain ⟨i, himem, hieq⟩ := hrc
      rw [← hieq]
      exact ⟨hfacts.1.2 i himem, hcn⟩)
    hnoopp1
  rw [hmfconv]
  set mid := ((deduce_from_possibilities p.size (p.cols.getD c [])
    ((List.range p.size).map (fun i => cellGet g0 i c))).1.map
    (fun i => (i, c))).foldl (markStep 1) (g0, ch0) with hmid
  have hmeconv : (deduce_from_possibilities p.size (p.cols.getD c [])
      ((List.range p.size).map (fun i => cellGet g0 i c))).2.foldl
      (fun gc i => if !(cellGet gc.1 i c == 0) then (cellSet gc.1 i c 0, true) else gc) mid =
      ((deduce_from_possibilities p.size (p.cols.getD c [])
        ((List.range p.size).map (fun i => cellGet g0 i c))).2.map
        (fun i => (i, c))).foldl (markStep 0) mid := by
    rw [List.foldl_map]
    rfl
  rw [hmeconv]
  have hnoopp2 : ∀ rc ∈ (deduce_from_possibilities p.size (p.cols.getD c [])
      ((List.range p.size).map (fun i => cellGet g0 i c))).2.map (fun i => (i, c)),
      ¬ (cellGet mid.1 rc.1 rc.2 = 1 - 0) := by
    intro rc hrc
    rw [List.mem_map] at hrc
    obtain ⟨i, himem, hieq⟩ := hrc
    rw [← hieq]
    show ¬ (cellGet mid.1 i c = 1 - 0)
    have hnotin : (i, c) ∉ (deduce_from_possibilities p.size (p.cols.getD c [])
        ((List.range p.size).map (fun i => cellGet g0 i c))).1.map (fun i => (i, c)) := by
      intro hcontra
      rw [List.mem_map] at hcontra
      obtain ⟨i2, hi2mem, hi2eq⟩ := hcontra
      have hi2i : i2 = i := by simpa using hi2eq
      rw [hi2i] at hi2mem
      exact deduce_disjoint p.size (p.cols.getD c [])
        ((List.range p.size).map (fun i => cellGet g0 i c)) i himem hi2mem
    rw [huntouched1 i c hnotin]
    have hin : i < p.size := hfacts.2.2 i himem
    have heq : ((List.range p.size).map (fun i => cellGet g0 i c)).getD i (-1) =
        cellGet g0 i c := getD_map_range p.size i _ hin
    rw [← heq]
    have h1 := deduce_empty_not_one p.size (p.cols.getD c [])
      ((List.range p.size).map (fun i => cellGet g0 i c)) i himem
    intro hcontra
    exact h1 (by omega)
  obtain ⟨hout2, _⟩ := markFold_outcome p.size 0 (Or.inl rfl)
    ((deduce_from_possibilities p.size (p.cols.getD c [])
      ((List.range p.size).map (fun i => cellGet g0 i c))).2.map
      (fun i => (i, c))) mid.1 mid.2 hout1.1 hout1.2.1
    (pairs_nodup_col c _ hfacts.2.1)
    (by
      intro rc hrc
      rw [List.mem_map] at hrc
      obtain ⟨i, himem, hieq⟩ := hrc
      rw [← hieq]
      exact ⟨hfacts.2.2 i himem, hcn⟩)
    hnoopp2
  exact hout1.comp hout2

set_option maxHeartbeats 2000000 in
lemma apply_possibility_pass_outcome (p : NonogramPuzzle) (g : Grid)
    (hwf : gridWF p.size g) (hvals : gridVals g) :
    LineOutcome p.size g false (apply_possibility_pass p g) := by
  have hfrow : ∀ (g0 : Grid) (ch0 : Bool) (r : Nat), r ∈ List.range p.size →
      gridWF p.size g0 → gridVals g0 →
      LineOutcome p.size g0 ch0
        ((fun gc r =>
          let known := gc.1.getD r []
          let mfme := deduce_from_possibilities p.size (p.rows.getD r []) known
          let gc1 := mfme.1.foldl
            (fun gc c =>
              if !(cellGet gc.1 r c == 1) then (cellSet gc.1 r c 1, true) else gc) gc
          mfme.2.foldl
            (fun gc c =>
              if !(cellGet gc.1 r c == 0) then (cellSet gc.1 r c 0, true) else gc) gc1)
          (g0, ch0) r) := by
    intro g0 ch0 r hr hwf0 hvals0
    exact possRow_outcome p g0 ch0 r hr hwf0 hvals0
  have hfcol : ∀ (g0 : Grid) (ch0 : Bool) (c : Nat), c ∈ List.range p.size →
      gridWF p.size g0 → gridVals g0 →
      LineOutcome p.size g0 ch0
        ((fun gc c =>
          let known := (List.range p.size).map (fun i => cellGet gc.1 i c)
          let mfme := deduce_from_possibilities p.size (p.cols.getD c []) known
          let gc1 := mfme.1.foldl
            (fun gc i =>
              if !(cellGet gc.1 i c == 1) then (cellSet gc.1 i c 1, true) else gc) gc
          mfme.2.foldl
            (fun gc i =>
              if !(cellGet gc.1 i c == 0) then (cellSet gc.1 i c 0, true) else gc) gc1)
          (g0, ch0) c) := by
    intro g0 ch0 c hc hwf0 hvals0
    exact possCol_outcome p g0 ch0 c hc hwf0 hvals0
  have h1 := foldl_lineOutcome p.size (List.range p.size)
    (fun gc r =>
      let known := gc.1.getD r []
      let mfme := deduce_from_possibilities p.size (p.rows.getD r []) known
      let gc1 := mfme.1.foldl
        (fun gc c =>
          if !(cellGet gc.1 r c == 1) then (cellSet gc.1 r c 1, true) else gc) gc
      mfme.2.foldl
        (fun gc c =>
          if !(cellGet gc.1 r c == 0) then (cellSet gc.1 r c 0, true) else gc) gc1)
    hfrow g false hwf hvals
  have h2 := foldl_lineOutcome p.size (List.range p.size)
    (fun gc c =>
      let known := (List.range p.size).map (fun i => cellGet gc.1 i c)
      let mfme := deduce_from_possibilities p.size (p.cols.getD c []) known
      let gc1 := mfme.1.foldl
        (fun gc i =>
          if !(cellGet gc.1 i c == 1) then (cellSet gc.1 i c 1, true) else gc) gc
      mfme.2.foldl
        (fun gc i =>
          if !(cellGet gc.1 i c == 0) then (cellSet gc.1 i c 0, true) else gc) gc1)
    hfcol
    ((List.range p.size).foldl
      (fun gc r =>
        let known := gc.1.getD r []
        let mfme := deduce_from_possibilities p.size (p.rows.getD r []) known
        let gc1 := mfme.1.foldl
          (fun gc c =>
            if !(cellGet gc.1 r c == 1) then (cellSet gc.1 r c 1, true) else gc) gc
        mfme.2.foldl
          (fun gc c =>
            if !(cellGet gc.1 r c == 0) then (cellSet gc.1 r c 0, true) else gc) gc1)
      (g, false)).1
    ((List.range p.size).foldl
      (fun gc r =>
        let known := gc.1.getD r []
        let mfme := deduce_from_possibilities p.size (p.rows.getD r []) known
        let gc1 := mfme.1.foldl
          (fun gc c =>
            if !(cellGet gc.1 r c == 1) then (cellSet gc.1 r c 1, true) else gc) gc
        mfme.2.foldl
          (fun gc c =>
            if !(cellGet gc.1 r c == 0) then (cellSet gc.1 r c 0, true) else gc) gc1)
      (g, false)).2
    h1.1 h1.2.1
  exact h1.comp h2

lemma initGrid_wf (n : Nat) : gridWF n (List.replicate n (List.replicate n (-1))) := by
  constructor
  · simp
  · intro row hrow
    rw [List.eq_of_mem_replicate hrow]
    simp

lemma initGrid_vals (n : Nat) : gridVals (List.replicate n (List.replicate n (-1))) := by
  intro row hrow v hv
  rw [List.eq_of_mem_replicate hrow] at hv
  exact Or.inl (List.eq_of_mem_replicate hv)

lemma solverFuelSufficient (p : NonogramPuzzle) :
    ∀ (fuel : Nat) (g : Grid), gridWF p.size g → gridVals g →
    p.size * p.size < fuel + decidedCount g →
    (solveLoop p fuel g).2 = true := by
  intro fuel
  induction fuel with
  | zero =>
    intro g hwf _ hlt
    exact absurd (decidedCount_le p.size g hwf) (by omega)
  | succ fuel ih =>
    intro g hwf hvals hlt
    by_cases hsolved : is_puzzle_solved p g = true
    · show (if is_puzzle_solved p g then (g, true)
        else
          let o := apply_overlap_pass p g
          let q := apply_possibility_pass p o.1
          if o.2 || q.2 then solveLoop p fuel q.1 else (q.1, true)).2 = true
      rw [if_pos hsolved]
    · show (if is_puzzle_solved p g then (g, true)
        else
          let o := apply_overlap_pass p g
          let q := apply_possibility_pass p o.1
          if o.2 || q.2 then solveLoop p fuel q.1 else (q.1, true)).2 = true
      rw [if_neg hsolved]
      show (if (apply_overlap_pass p g).2 ||
            (apply_possibility_pass p (apply_overlap_pass p g).1).2 then
          solveLoop p fuel (apply_possibility_pass p (apply_overlap_pass p g).1).1
        else ((apply_possibility_pass p (apply_overlap_pass p g).1).1, true)).2 = true
      have h1 := apply_overlap_pass_outcome p g hwf hvals
      have h2 := apply_possibility_pass_outcome p (apply_overlap_pass p g).1 h1.1 h1.2.1
      by_cases hch : ((apply_overlap_pass p g).2 ||
          (apply_possibility_pass p (apply_overlap_pass p g).1).2) = true
      · rw [if_pos hch]
        apply ih _ h2.1 h2.2.1
        have hflag1 := h1.2.2.2.2
        have hflag2 := h2.2.2.2.2
        rw [hflag1, hflag2] at hch
        simp only [Bool.false_or, Bool.or_eq_true, decide_eq_true_eq] at hch
        have hle1 := h1.2.2.2.1
        have hle2 := h2.2.2.2.1
        rcases hch with h | h <;> omega
      · rw [if_neg hch]

/-- C8: across one propagation round (an `apply_overlap_pass` followed by an
`apply_possibility_pass`), the set of decided cells never shrinks: the decided
count is monotone and every cell decided before the round keeps its value (in
particular it is still decided) after it. -/
theorem c8_round_monotone (p : NonogramPuzzle) (g : Grid)
    (hwf : gridWF p.size g) (hvals : gridVals g) :
    decidedCount g ≤
      decidedCount (apply_possibility_pass p (apply_overlap_pass p g).1).1 ∧
    ∀ r c, cellGet g r c ≠ -1 →
      cellGet (apply_possibility_pass p (apply_overlap_pass p g).1).1 r c =
        cellGet g r c := by
  have h1 := apply_overlap_pass_outcome p g hwf hvals
  have h2 := apply_possibility_pass_outcome p (apply_overlap_pass p g).1 h1.1 h1.2.1
  have hmono : Mono01 g (apply_possibility_pass p (apply_overlap_pass p g).1).1 :=
    (h1.2.2.1).trans h2.2.2.1
  refine ⟨Nat.le_trans h1.2.2.2.1 h2.2.2.2.1, ?_⟩
  intro r c hne
  rcases hmono r c with h | ⟨h, _⟩
  · exact h
  · exact absurd h hne

theorem c8_round_monotone_witness :
    gridWF 2 [[1,-1],[-1,-1]] ∧ gridVals [[1,-1],[-1,-1]] ∧
    (decidedCount [[1,-1],[-1,-1]] ≤
      decidedCount (apply_possibility_pass ⟨2, [[1],[1]], [[1],[1]]⟩
        (apply_overlap_pass ⟨2, [[1],[1]], [[1],[1]]⟩ [[1,-1],[-1,-1]]).1).1 ∧
     ∀ r c, cellGet [[1,-1],[-1,-1]] r c ≠ -1 →
      cellGet (apply_possibility_pass ⟨2, [[1],[1]], [[1],[1]]⟩
        (apply_overlap_pass ⟨2, [[1],[1]], [[1],[1]]⟩ [[1,-1],[-1,-1]]).1).1 r c =
        cellGet [[1,-1],[-1,-1]] r c) :=
  ⟨by unfold gridWF; decide, by unfold gridVals; decide,
    c8_round_monotone ⟨2, [[1],[1]], [[1],[1]]⟩ [[1,-1],[-1,-1]]
      (by unfold gridWF; decide) (by unfold gridVals; decide)⟩

/-- C9: both passes only write to Unknown cells: for every cell, either its
value is unchanged by the pass, or it was Unknown (`-1`) before and is decided
(`0` or `1`) after; a decided cell is never overwritten with the other value. -/
theorem c9_passes_write_only_unknowns (p : NonogramPuzzle) (g : Grid)
    (hwf : gridWF p.size g) (hvals : gridVals g) :
    Mono01 g (apply_overlap_pass p g).1 ∧ Mono01 g (apply_possibility_pass p g).1 :=
  ⟨(apply_overlap_pass_outcome p g hwf hvals).2.2.1,
   (apply_possibility_pass_outcome p g hwf hvals).2.2.1⟩

theorem c9_passes_write_only_unknowns_witness :
    gridWF 2 [[0,-1],[-1,1]] ∧ gridVals [[0,-1],[-1,1]] ∧
    (Mono01 [[0,-1],[-1,1]] (apply_overlap_pass ⟨2, [[1],[1]], [[1],[1]]⟩ [[0,-1],[-1,1]]).1 ∧
     Mono01 [[0,-1],[-1,1]] (apply_possibility_pass ⟨2, [[1],[1]], [[1],[1]]⟩ [[0,-1],[-1,1]]).1) :=
  ⟨by unfold gridWF; decide, by unfold gridVals; decide,
    c9_passes_write_only_unknowns ⟨2, [[1],[1]], [[1],[1]]⟩ [[0,-1],[-1,1]]
      (by unfold gridWF; decide) (by unfold gridVals; decide)⟩

/-- C10: the solver's while loop terminates.  The fuelled rendering exits on
its own (solved break or an unproductive round) within `size*size + 1`
iterations starting from the all-Unknown grid, and each round's combined
change flag is `true` exactly when the round decided at least one new cell, so
there are at most `size*size` productive rounds. -/
theorem c10_solver_terminates (p : NonogramPuzzle) :
    (solveLoop p (p.size * p.size + 1)
      (List.replicate p.size (List.replicate p.size (-1)))).2 = true ∧
    ∀ g : Grid, gridWF p.size g → gridVals g →
      ((apply_overlap_pass p g).2 ||
        (apply_possibility_pass p (apply_overlap_pass p g).1).2) =
      decide (decidedCount g <
        decidedCount (apply_possibility_pass p (apply_overlap_pass p g).1).1) := by
  constructor
  · exact solverFuelSufficient p (p.size * p.size + 1) _
      (initGrid_wf p.size) (initGrid_vals p.size) (by omega)
  · intro g hwf hvals
    have h1 := apply_overlap_pass_outcome p g hwf hvals
    have h2 := apply_possibility_pass_outcome p (apply_overlap_pass p g).1 h1.1 h1.2.1
    have hfc := flag_compose false (decidedCount g)
      (decidedCount (apply_overlap_pass p g).1)
      (decidedCount (apply_possibility_pass p (apply_overlap_pass p g).1).1)
      h1.2.2.2.1 h2.2.2.2.1
    rw [h1.2.2.2.2, h2.2.2.2.2]
    simp only [Bool.false_or] at hfc ⊢
    exact hfc

theorem c10_solver_terminates_witness :
    gridWF 2 [[1,-1],[-1,-1]] ∧
    (((apply_overlap_pass ⟨2, [[1],[1]], [[1],[1]]⟩ [[1,-1],[-1,-1]]).2 ||
      (apply_possibility_pass ⟨2, [[1],[1]], [[1],[1]]⟩
        (apply_overlap_pass ⟨2, [[1],[1]], [[1],[1]]⟩ [[1,-1],[-1,-1]]).1).2) =
      decide (decidedCount [[1,-1],[-1,-1]] <
        decidedCount (apply_possibility_pass ⟨2, [[1],[1]], [[1],[1]]⟩
          (apply_overlap_pass ⟨2, [[1],[1]], [[1],[1]]⟩ [[1,-1],[-1,-1]]).1).1)) :=
  ⟨by unfold gridWF; decide,
    (c10_solver_terminates ⟨2, [[1],[1]], [[1],[1]]⟩).2 [[1,-1],[-1,-1]]
      (by unfold gridWF; decide) (by unfold gridVals; decide)⟩
